import Mathlib

/-!
Verification development for the CloudFormation template deployer
(localstack/utils/cloudformation/template_deployer.py).

The embedding models:
- template values (parsed JSON trees) as the mutual inductive `JVal`/`JArr`/`JObj`
  (Python `None` and JSON `null` are both `JVal.jnull`; Python dicts are ordered
  association lists, as in Python 3.7+);
- the external collaborators (boto provider clients, the CloudFormation state
  store, `common.short_uid`) as an explicit environment `Env` of oracles, per the
  interface boundary of the specification (section 6);
- Python exceptions as `Except String` with abbreviated messages;
- in-place mutation of the shared resource map as explicit state passing
  (functions return the updated resource map alongside their result).
-/

set_option linter.unusedVariables false

mutual

inductive JVal where
  | jnull : JVal
  | jbool : Bool → JVal
  | jnum : Int → JVal
  | jstr : String → JVal
  | jarr : JArr → JVal
  | jobj : JObj → JVal
  deriving DecidableEq

inductive JArr where
  | anil : JArr
  | acons : JVal → JArr → JArr
  deriving DecidableEq

inductive JObj where
  | onil : JObj
  | ocons : String → JVal → JObj → JObj
  deriving DecidableEq

end

deriving instance DecidableEq for Except

/-- Python truthiness of a JSON value: `None`, `False`, `0`, `''`, `[]`, `{}`
are falsy, everything else is truthy. -/
def jtruthy : JVal → Bool
  | .jnull => false
  | .jbool b => b
  | .jnum n => n != 0
  | .jstr s => s != ""
  | .jarr .anil => false
  | .jarr _ => true
  | .jobj .onil => false
  | .jobj _ => true

/-- Dictionary lookup (`dict.get(k)`): first binding of the key, if any. -/
def JObj.lookup (k : String) : JObj → Option JVal
  | .onil => none
  | .ocons k2 v rest => if k2 == k then some v else JObj.lookup k rest

/-- Dictionary assignment (`d[k] = v`): replace the value of an existing key in
place (keeping its position, as Python dicts do), else append the new binding. -/
def JObj.set (k : String) (v : JVal) : JObj → JObj
  | .onil => .ocons k v .onil
  | .ocons k2 v2 rest =>
      if k2 == k then .ocons k2 v rest else .ocons k2 v2 (JObj.set k v rest)

def JObj.keys : JObj → List String
  | .onil => []
  | .ocons k _ rest => k :: JObj.keys rest

def JObj.toList : JObj → List (String × JVal)
  | .onil => []
  | .ocons k v rest => (k, v) :: JObj.toList rest

def JArr.toList : JArr → List JVal
  | .anil => []
  | .acons v rest => v :: JArr.toList rest

/-- Membership test of a value in a JSON array (Python `x in list`). -/
def JArr.containsV (x : JVal) : JArr → Bool
  | .anil => false
  | .acons v rest => v == x || JArr.containsV x rest

/-- Access `v.get(k)` for a dict value; `none` when the key is absent or the
value is not a dict (Python would raise on the latter; callers only apply this
to dicts, or handle the non-dict case explicitly). -/
def jget (v : JVal) (k : String) : Option JVal :=
  match v with
  | .jobj o => o.lookup k
  | _ => none

/-- The Python string library is modeled at the character-list level so that
all functions reduce in the kernel. ASCII lowercase of one character. -/
def lcChar (c : Char) : Char :=
  if 'A' ≤ c ∧ c ≤ 'Z' then Char.ofNat (c.toNat + 32) else c

/-- Python `str.lower()` (ASCII range, which covers every string the deployer
lowercases: intrinsic-function key names). -/
def lcString (s : String) : String := ⟨s.data.map lcChar⟩

/-- Character-list test that `pat` is a leading block of `s`. -/
def startsWithL : List Char → List Char → Bool
  | [], _ => true
  | _ :: _, [] => false
  | p :: ps, c :: cs => p == c && startsWithL ps cs

/-- Character-list substring search. -/
def containsSubL (pat : List Char) : List Char → Bool
  | [] => startsWithL pat []
  | c :: cs => startsWithL pat (c :: cs) || containsSubL pat cs

/-- Python `pat in s` substring containment. -/
def strContains (s pat : String) : Bool := containsSubL pat.data s.data

/-- Python `s.replace(old, new)`: replace every non-overlapping occurrence,
left to right. An empty pattern is mapped to the identity (the deployer only
replaces nonempty patterns of the shape `"$\x7bname\x7d"`). Recursion is fueled
so that the definition stays structural (and kernel-evaluable); each step
consumes at least one character, so fuel equal to the length of the string is
always enough, and `replaceL` supplies exactly that. -/
def replaceFuel (old new : List Char) : Nat → List Char → List Char
  | _, [] => []
  | 0, s => s
  | fuel + 1, c :: cs =>
      match old with
      | [] => c :: cs
      | o :: os =>
          if startsWithL (o :: os) (c :: cs) then
            new ++ replaceFuel old new fuel (List.drop os.length cs)
          else
            c :: replaceFuel old new fuel cs

def replaceL (old new s : List Char) : List Char := replaceFuel old new s.length s

def replaceAll (s old new : String) : String := ⟨replaceL old.data new.data s.data⟩

/-- First character lowercased (`common.first_char_to_lower`). -/
def firstCharToLower (s : String) : String :=
  match s.data with
  | [] => ""
  | c :: rest => ⟨lcChar c :: rest⟩

/-- JSON string escaping as `json.dumps` performs it for the characters that can
occur here (quote, backslash and ASCII control characters; `ensure_ascii`
escaping of non-ASCII characters is not modeled, the deployer only serializes
templates to search for ASCII reference patterns). -/
def escChar (c : Char) : List Char :=
  if c = '"' then ['\\', '"']
  else if c = '\\' then ['\\', '\\']
  else if c = '\n' then ['\\', 'n']
  else if c = '\t' then ['\\', 't']
  else if c = '\r' then ['\\', 'r']
  else [c]

def escString (s : String) : String := ⟨s.data.flatMap escChar⟩

mutual

/-- Serialization mirroring Python `json.dumps(common.json_safe(x))` with the
default separators `", "` and `": "`. `common.json_safe` is the identity on the
already JSON-shaped trees modeled by `JVal`. -/
def jsonDumps : JVal → String
  | .jnull => "null"
  | .jbool b => if b then "true" else "false"
  | .jnum n => toString n
  | .jstr s => "\"" ++ escString s ++ "\""
  | .jarr a => "[" ++ jsonDumpsArr a ++ "]"
  | .jobj o => "\x7b" ++ jsonDumpsObj o ++ "\x7d"

def jsonDumpsArr : JArr → String
  | .anil => ""
  | .acons v .anil => jsonDumps v
  | .acons v rest => jsonDumps v ++ ", " ++ jsonDumpsArr rest

def jsonDumpsObj : JObj → String
  | .onil => ""
  | .ocons k v .onil => "\"" ++ escString k ++ "\": " ++ jsonDumps v
  | .ocons k v rest => "\"" ++ escString k ++ "\": " ++ jsonDumps v ++ ", " ++ jsonDumpsObj rest

end

/-!
Registry and resource typing. `RESOURCE_TO_FUNCTION` (source lines 178-448) is
the declarative action table; the scheduler logic only inspects which resource
types have an entry and which actions an entry carries (`entry.get('create')`,
`action_name not in func_details`), so it is embedded as that presence map.
Every `create`/`delete` value present in the source table is a nonempty dict or
list (truthy), so key presence coincides with truthiness.
-/

def ACTION_CREATE : String := "create"

def ACTION_DELETE : String := "delete"

def PLACEHOLDER_RESOURCE_NAME : String := "__resource_name__"

def STATIC_REFS : List String := ["AWS::Region", "AWS::Partition", "AWS::StackName"]

structure RegistryEntry where
  create : Bool
  delete : Bool
  deriving DecidableEq

def RESOURCE_TO_FUNCTION : List (String × RegistryEntry) :=
  [("S3::Bucket", ⟨true, true⟩),
   ("S3::BucketPolicy", ⟨true, false⟩),
   ("SQS::Queue", ⟨true, true⟩),
   ("SNS::Topic", ⟨true, true⟩),
   ("Logs::LogGroup", ⟨false, false⟩),
   ("Lambda::Function", ⟨true, false⟩),
   ("Lambda::Version", ⟨true, false⟩),
   ("Lambda::Permission", ⟨false, false⟩),
   ("Lambda::EventSourceMapping", ⟨true, false⟩),
   ("DynamoDB::Table", ⟨true, false⟩),
   ("Events::Rule", ⟨true, false⟩),
   ("IAM::Role", ⟨true, false⟩),
   ("ApiGateway::RestApi", ⟨true, false⟩),
   ("ApiGateway::Resource", ⟨true, false⟩),
   ("ApiGateway::Method", ⟨true, false⟩),
   ("ApiGateway::Method::Integration", ⟨false, false⟩),
   ("ApiGateway::Deployment", ⟨true, false⟩),
   ("ApiGateway::GatewayResponse", ⟨true, false⟩),
   ("Kinesis::Stream", ⟨true, true⟩),
   ("StepFunctions::StateMachine", ⟨true, false⟩),
   ("StepFunctions::Activity", ⟨true, false⟩),
   ("SNS::Subscription", ⟨true, false⟩),
   ("CloudFormation::Stack", ⟨true, false⟩)]

/-- Remainder of a character list after the first occurrence of `"::"`,
mirroring `res_type.split('::', 1)[1]`; `none` when no `"::"` occurs. -/
def splitAfterColons : List Char → Option (List Char)
  | [] => none
  | ':' :: ':' :: rest => some rest
  | _ :: rest => splitAfterColons rest

/-- Source `get_resource_type` (lines 491-496): take `ResourceType` if truthy,
else `Type` if truthy, else `''`; drop everything up to the first `"::"`;
`none` when there is no `"::"` separator. A truthy non-string type value would
crash Python before reaching the split and cannot arise from a parsed template;
it is mapped to the untyped case. -/
def get_resource_type (resource : JVal) : Option String :=
  let v1 := (jget resource "ResourceType").getD .jnull
  let v2 := if jtruthy v1 then v1 else (jget resource "Type").getD .jnull
  let resType : String :=
    match (if jtruthy v2 then v2 else .jstr "") with
    | .jstr s => s
    | _ => ""
  match splitAfterColons resType.data with
  | none => none
  | some rest => some ⟨rest⟩

/-- Source `is_deployable_resource` (lines 1110-1115):
`bool(entry and entry.get(ACTION_CREATE))` for the registry entry of the
resource type (an unknown type, or the `None` type of a resource without a
`"::"`-qualified type string, has no entry). -/
def is_deployable_resource (resource : JVal) : Bool :=
  match get_resource_type resource with
  | none => false
  | some t =>
      match List.lookup t RESOURCE_TO_FUNCTION with
      | none => false
      | some entry => entry.create

/-- A template's `Resources` section: logical id to resource dict, in template
order (Python dicts preserve insertion order). -/
abbrev Resources := List (String × JVal)

/-- Assignment `result[k] = v` on an association list used as a Python dict:
replace the value of an existing key in place, else append. -/
def resSet (k : String) (v : JVal) : Resources → Resources
  | [] => [(k, v)]
  | p :: rest => if p.1 == k then (k, v) :: rest else p :: resSet k v rest

/-- Serialized pattern `'{"Ref": "%s"}' % other_id` searched for by
`get_resource_dependencies`. -/
def refSearch1 (other_id : String) : String := "\x7b\"Ref\": \"" ++ other_id ++ "\"\x7d"

/-- Serialized pattern `'{"Fn::GetAtt": ["%s", ' % other_id`. -/
def refSearch2 (other_id : String) : String := "\x7b\"Fn::GetAtt\": [\"" ++ other_id ++ "\", "

/-- The `DependsOn` attribute normalized to a list
(`dependencies if isinstance(dependencies, list) else [dependencies]`). -/
def dependsOnList (resource : JVal) : List JVal :=
  match jget resource "DependsOn" with
  | none => []
  | some (.jarr a) => a.toList
  | some v => [v]

/-- Source `get_resource_dependencies` (lines 1165-1179): serialize the whole
resource with `json.dumps(common.json_safe(resource))`, then for every entry of
the resource map whose value differs from `resource` (Python `!=` compares dict
values), add it to the result dict if the serialized form contains the
`Ref`/`Fn::GetAtt` search pattern for its logical id, or if its logical id is
listed in `DependsOn`. -/
def get_resource_dependencies (resource_id : String) (resource : JVal)
    (resources : Resources) : Resources :=
  let dumped := jsonDumps resource
  let dependencies := dependsOnList resource
  List.foldl
    (fun result p =>
      if resource != p.2 then
        let result :=
          if strContains dumped (refSearch1 p.1) || strContains dumped (refSearch2 p.1) then
            resSet p.1 p.2 result
          else result
        if dependencies.contains (.jstr p.1) then resSet p.1 p.2 result else result
      else result)
    [] resources

/-!
Deployment scheduler (source lines 1068-1095 and 1110-1162). The Resource-State
collaborator (`retrieve_resource_details`, a per-type provider query, plus the
per-iteration `describe_stack_resource` snapshot refresh) is abstracted, per
section 6 of the specification, as the list `deployed` of resource ids the
collaborator currently reports present; `is_deployed` is membership in it, and
executing a ready resource's create action is assumed to succeed and make the
resource visible there (an idealized provider).
-/

/-- Source `is_deployed` (lines 1118-1122): whether the state collaborator
reports the resource as present. -/
def is_deployed (resource_id : String) (deployed : List String) : Bool :=
  deployed.contains resource_id

/-- Source `all_dependencies_satisfied` (lines 1149-1154): every *deployable*
dependency must be reported deployed; dependencies that are not deployable are
skipped by the `is_deployable_resource` guard. -/
def all_dependencies_satisfied (res_deps : Resources) (deployed : List String) : Bool :=
  res_deps.all fun p => !is_deployable_resource p.2 || is_deployed p.1 deployed

/-- Source `all_resource_dependencies_satisfied` (lines 1143-1146). A lookup
miss would be a Python `KeyError`; callers only pass keys of the map. -/
def all_resource_dependencies_satisfied (resource_id : String) (resources : Resources)
    (deployed : List String) : Bool :=
  match List.lookup resource_id resources with
  | none => true
  | some resource =>
      all_dependencies_satisfied (get_resource_dependencies resource_id resource resources) deployed

/-- Source `should_be_deployed` (lines 1125-1131): deployable, not yet
deployed, and all (deployable) dependencies satisfied. -/
def should_be_deployed (resource_id : String) (resources : Resources)
    (deployed : List String) : Bool :=
  match List.lookup resource_id resources with
  | none => false
  | some resource =>
      if !is_deployable_resource resource || is_deployed resource_id deployed then false
      else all_resource_dependencies_satisfied resource_id resources deployed

/-- Source `resources_to_deploy_next` (lines 1157-1162). -/
def resources_to_deploy_next (resources : Resources) (deployed : List String) : Resources :=
  resources.filter fun p => should_be_deployed p.1 resources deployed

/-- Observable outcome of `deploy_template`: the source returns `None` on every
path, so the outcome records which exit was taken and what the final
collaborator state is. `noResources` is the missing/empty `Resources` warning;
`fixedPoint` is the silent `return` taken when the computed frontier is empty;
`exhausted` is the post-loop warning, whose first component is the frontier
`next` computed in the final iteration (the list the warning prints as
"Remaining"). -/
inductive DeployResult where
  | noResources : DeployResult
  | fixedPoint : List String → DeployResult
  | exhausted : List String → List String → DeployResult
  deriving DecidableEq

def resultDeployed : DeployResult → List String
  | .noResources => []
  | .fixedPoint d => d
  | .exhausted _ d => d

/-- The bounded loop of `deploy_template` (lines 1079-1095): each iteration
computes the frontier `next = resources_to_deploy_next(...)`; an empty frontier
returns immediately, otherwise every frontier resource is deployed and the loop
continues; when the `iters = 10` budget runs out the warning path reports the
last computed frontier. -/
def deployIter (resources : Resources) : Nat → List String → List String → DeployResult
  | 0, deployed, lastNext => .exhausted lastNext deployed
  | fuel + 1, deployed, _ =>
      let next := resources_to_deploy_next resources deployed
      if next.isEmpty then .fixedPoint deployed
      else deployIter resources fuel (deployed ++ next.map Prod.fst) (next.map Prod.fst)

/-- Source `deploy_template` (lines 1068-1095), starting from collaborator
state `deployed` (the template parsing front end is out of scope; the resource
map is passed directly). -/
def deploy_template (resources : Resources) (deployed : List String) : DeployResult :=
  if resources.isEmpty then .noResources
  else deployIter resources 10 deployed (resources.map Prod.fst)

/-- Iterating the body of the deployment loop `k` times without the budget or
the early return, used to state "reached within N iterations". -/
def deploySteps (resources : Resources) : Nat → List String → List String
  | 0, deployed => deployed
  | k + 1, deployed =>
      deploySteps resources k (deployed ++ (resources_to_deploy_next resources deployed).map Prod.fst)

/-- Number of resources the state collaborator does not yet report deployed. -/
def undeployedCount (resources : Resources) (deployed : List String) : Nat :=
  ((resources.map Prod.fst).filter (fun id => !deployed.contains id)).length

/-- Dependency set as claim C4 words it: the union of the explicit `DependsOn`
entries and every resource whose logical id occurs as the target of a
serialized `Ref`/`Fn::GetAtt` pattern, excluding only the resource itself
(by logical id). -/
def claim_dependency_set (resource_id : String) (resource : JVal)
    (resources : Resources) : Resources :=
  resources.filter fun p =>
    p.1 != resource_id &&
      (strContains (jsonDumps resource) (refSearch1 p.1) ||
        strContains (jsonDumps resource) (refSearch2 p.1) ||
        (dependsOnList resource).contains (.jstr p.1))

/-- Dependency set as the code computes it, stated declaratively: the same
union, but excluding every map entry whose *value* equals the resource (the
source guard is `resource != other`, a dict-value comparison, so a resource
with a value-identical twin excludes the twin as well as itself). -/
def amended_dependency_set (resource_id : String) (resource : JVal)
    (resources : Resources) : Resources :=
  resources.filter fun p =>
    resource != p.2 &&
      (strContains (jsonDumps resource) (refSearch1 p.1) ||
        strContains (jsonDumps resource) (refSearch2 p.1) ||
        (dependsOnList resource).contains (.jstr p.1))

/-!
Reference resolver (source lines 453-835). External collaborators are supplied
as oracles in an environment, per section 6 of the specification:
`region` is `aws_stack.get_region()`; `stackParam` is `get_stack_parameter`
(stack parameter values are strings); `describeResource` is
`describe_stack_resource` (`none` both for a missing resource and for the
caught-and-logged client exception); `fetchDetails` is the provider query
performed by the non-Lambda branches of `retrieve_resource_details`, keyed by
the (possibly physical-id-rewritten) resource id and the resource dict;
`getFunction` is the Lambda `get_function` call; `apigwRoot` is the API-gateway
root-resource lookup inside `extract_resource_attribute`; `shortUid` is the
value `common.short_uid()` returns; `normalizeBucketName` is
`s3_listener.normalize_bucket_name`; `runAction` abstracts one
`configure_resource_via_sdk` provider interaction for `execute_resource_action`.
-/

structure Env where
  region : String
  stackParam : String → String → Option String
  describeResource : String → String → Option JObj
  fetchDetails : JVal → JVal → Option JVal
  getFunction : JVal → Option JVal
  apigwRoot : String → Option String
  shortUid : String
  normalizeBucketName : JVal → JVal
  runAction : String → String → Except String (Option JVal)

/-- Update of the resource map entry for `resource_id` (the source mutates the
resource dict in place; the map sees the new value). -/
def resUpdate (resources : Resources) (resource_id : String) (v : JVal) : Resources :=
  resources.map fun p => if p.1 == resource_id then (p.1, v) else p

/-- Assignment `d[k] = v` through a `JVal` that is a dict (no-op otherwise;
the source only assigns into dicts). -/
def jset (v : JVal) (k : String) (newv : JVal) : JVal :=
  match v with
  | .jobj o => .jobj (o.set k newv)
  | _ => v

/-- The generated default function name
`'{}-lambda-{}'.format(stack_name[:45], common.short_uid())`. -/
def genLambdaName (stack_name uid : String) : String :=
  stack_name.take 45 ++ "-lambda-" ++ uid

/-- The fallback tail of `extract_resource_attribute` (lines 749-750):
`resource.get(attribute) or resource.get(attribute_lower)`; a non-dict
`resource` would raise `AttributeError` in Python. -/
def fallbackAttr (resource : JVal) (attrName : String) : Except String JVal :=
  match resource with
  | .jobj _ =>
      let v1 := (jget resource attrName).getD .jnull
      if jtruthy v1 then .ok v1
      else .ok ((jget resource (firstCharToLower attrName)).getD .jnull)
  | _ => .error "AttributeError"

/-- Source `extract_resource_attribute` (lines 728-750). Python `KeyError` and
`TypeError` raised by indexing into the provider-state snapshot are modeled as
errors; the API-gateway root-resource listing is the `apigwRoot` oracle, and
when it finds no root the Python `for` loop falls through to the generic
attribute fallback. -/
def extract_resource_attribute (env : Env) (resource_type : Option String)
    (resource : JVal) (attrName : String) : Except String JVal :=
  if resource_type == some "Lambda::Function" then
    let actual := if attrName == "Arn" then "FunctionArn" else attrName
    match jget resource "Configuration" with
    | some cfg =>
        match jget cfg actual with
        | some v => .ok v
        | none => .error "KeyError"
    | none => .error "KeyError"
  else if resource_type == some "DynamoDB::Table" then
    let actual := if attrName == "StreamArn" then "LatestStreamArn" else attrName
    match jget resource "Table" with
    | some t => .ok ((jget t actual).getD .jnull)
    | none => .error "KeyError"
  else if resource_type == some "ApiGateway::RestApi" then
    if attrName == "PhysicalResourceId" then
      match jget resource "id" with
      | some v => .ok v
      | none => .error "KeyError"
    else if attrName == "RootResourceId" then
      match jget resource "id" with
      | some (.jstr api_id) =>
          match env.apigwRoot api_id with
          | some rid => .ok (.jstr rid)
          | none => fallbackAttr resource attrName
      | some _ => .error "ParamValidationError"
      | none => .error "KeyError"
    else fallbackAttr resource attrName
  else if resource_type == some "ApiGateway::Resource" && attrName == "PhysicalResourceId" then
    match jget resource "id" with
    | some v => .ok v
    | none => .error "KeyError"
  else fallbackAttr resource attrName

/-- Source `retrieve_resource_details` (lines 560-717). The per-type provider
queries are the Resource-State collaborator boundary (spec section 6) and are
supplied by the `fetchDetails`/`getFunction` oracles; a raised-and-caught
not-found exception is the oracle returning `none`. The one internal side
effect of the function is modeled explicitly: the `Lambda::Function` branch
(lines 568-572) assigns a default `FunctionName` into the resource's
`Properties` before querying the provider, mutating the shared resource map
(this write happens even when the subsequent provider query finds nothing).
A Lambda resource whose `Properties` is absent or not a dict raises inside the
enclosing `try` and yields `None` with no write. -/
def retrieve_resource_details (env : Env) (resource_id : String) (resource_status : JObj)
    (resources : Resources) (stack_name : String) : Option JVal × Resources :=
  let resource := (List.lookup resource_id resources).getD (.jobj .onil)
  let res_found := jtruthy resource
  let phys : JVal :=
    match resource_status.lookup "PhysicalResourceId" with
    | some v => if jtruthy v then v else .jstr resource_id
    | none => .jstr resource_id
  match get_resource_type resource with
  | some "Lambda::Function" =>
      match jget resource "Properties" with
      | some (.jobj props) =>
          let fname : JVal :=
            match props.lookup "FunctionName" with
            | some v => if jtruthy v then v else .jstr (genLambdaName stack_name env.shortUid)
            | none => .jstr (genLambdaName stack_name env.shortUid)
          let resource2 := jset resource "Properties" (.jobj (props.set "FunctionName" fname))
          let resources2 := resUpdate resources resource_id resource2
          let callName := if res_found then fname else phys
          (env.getFunction callName, resources2)
      | _ => (none, resources)
  | _ => (env.fetchDetails phys resource, resources)

/-- Attribute hit in a stack-resource snapshot:
`attr_value = resource_status.get(attribute); if attr_value not in [None, '']`. -/
def statusAttrHit (status : JObj) (attrName : String) : Option JVal :=
  match status.lookup attrName with
  | none => none
  | some v => if v == .jnull || v == .jstr "" then none else some v

/-- Tail of `resolve_ref` (lines 777-786): fetch the resource details, treat a
falsy result as unresolved (`None`), then extract the requested attribute from
the snapshot. The resource for the type lookup is read from the possibly
updated map, as the Python objects alias. -/
def resolveRefDetails (env : Env) (stack_name : String) (ref : String) (resources : Resources)
    (attrName : String) (resource_status : JObj) : Except String (JVal × Resources) :=
  match retrieve_resource_details env ref resource_status resources stack_name with
  | (none, res2) => .ok (.jnull, res2)
  | (some resource_new, res2) =>
      if !jtruthy resource_new then .ok (.jnull, res2)
      else
        match List.lookup ref res2 with
        | none => .error "AttributeError"
        | some resource =>
            match extract_resource_attribute env (get_resource_type resource) resource_new attrName with
            | .error e => .error e
            | .ok result => .ok (result, res2)

/-- Source `resolve_ref` (lines 753-786): pseudo-parameters first, then stack
parameters, then resource state — via the per-stack snapshot when a stack name
is present (an empty snapshot is falsy and yields `None`; a snapshot carrying
the requested attribute returns it directly), else via the cached
`__details__` of the resource (whose absence would be a Python `KeyError`). -/
def resolve_ref (env : Env) (stack_name : String) (ref : String) (resources : Resources)
    (attrName : String) : Except String (JVal × Resources) :=
  if ref == "AWS::Region" then .ok (.jstr env.region, resources)
  else if ref == "AWS::Partition" then .ok (.jstr "aws", resources)
  else if ref == "AWS::StackName" then .ok (.jstr stack_name, resources)
  else
    match env.stackParam stack_name ref with
    | some v => .ok (.jstr v, resources)
    | none =>
        if stack_name != "" then
          match env.describeResource stack_name ref with
          | none => .ok (.jnull, resources)
          | some status =>
              if status == .onil then .ok (.jnull, resources)
              else
                match statusAttrHit status attrName with
                | some v => .ok (v, resources)
                | none => resolveRefDetails env stack_name ref resources attrName status
        else
          match List.lookup ref resources with
          | some resource =>
              match jget resource "__details__" with
              | some (.jobj st) => resolveRefDetails env stack_name ref resources attrName st
              | some _ => .error "AttributeError"
              | none => .error "KeyError"
          | none => resolveRefDetails env stack_name ref resources attrName .onil

/-- Python `sep.join(strs)`. -/
def joinSep (sep : String) : List String → String
  | [] => ""
  | [s] => s
  | s :: rest => s ++ sep ++ joinSep sep rest

/-- Values of a resolved `Fn::Join` list when they are all strings (any
non-string element raises `TypeError` in `sep.join`). -/
def allStringsOf : JArr → Option (List String)
  | .anil => some []
  | .acons (.jstr s) rest => (allStringsOf rest).map (s :: ·)
  | .acons _ _ => none

/-- Error raised at source line 804; the Python message interpolates the
expression and the resolved values, abbreviated here to a fixed string. -/
def joinNullError : String := "Cannot resolve CF fn::Join due to null values"

/-- The bare-string `Fn::Sub` substitution loop (lines 808-815): the constructed
map `attr_refs` binds each name of `STATIC_REFS` to `{'Ref': name}`, and
resolving `{'Ref': name}` is, by the resolver's single-`Ref`-key branch,
exactly `resolve_ref(stack_name, name, resources, 'PhysicalResourceId')`,
inlined here so the recursion stays structural. -/
def subPseudoRefs (env : Env) (stack_name : String) :
    List String → String → Resources → Except String (String × Resources)
  | [], text, res => .ok (text, res)
  | r :: rest, text, res =>
      match resolve_ref env stack_name r res "PhysicalResourceId" with
      | .error e => .error e
      | .ok (v, res1) =>
          match v with
          | .jstr s => subPseudoRefs env stack_name rest (replaceAll text ("$\x7b" ++ r ++ "\x7d") s) res1
          | _ => .error "TypeError"

/-- The `Ref` arm of `resolve_refs_recursively` (lines 791-793): a dict whose
key list is exactly `['Ref']` resolves the referenced id (a non-string operand
would fail inside `resolve_ref`/boto validation). -/
def resolveRefBranch (env : Env) (stack_name : String) (v : JVal) (resources : Resources) :
    Except String (JVal × Resources) :=
  match v with
  | .jstr r => resolve_ref env stack_name r resources "PhysicalResourceId"
  | _ => .error "ParamValidationError"

/-- The `Fn::GetAtt` arm (lines 795-798): the two-element operand list gives the
resource id and the attribute; malformed operands raise. -/
def resolveGetAttBranch (env : Env) (stack_name : String) (v : JVal) (resources : Resources) :
    Except String (JVal × Resources) :=
  match v with
  | .jarr (.acons a (.acons b _)) =>
      match a, b with
      | .jstr r, .jstr attrName => resolve_ref env stack_name r resources attrName
      | _, _ => .error "TypeError"
  | _ => .error "IndexError"

mutual

/-- Source `resolve_refs_recursively` (lines 789-822). A dict whose key list is
exactly `['Ref']` resolves the reference; otherwise the *first* key selects the
`Fn::GetAtt`/`Fn::Join`/`Fn::Sub` handling (case-insensitively); any other dict
or list is traversed recursively, scalars pass through. The source mutates
dicts and lists in place and also returns them; the model returns the new tree
and threads the resource map. Python exceptions (`TypeError` on joining or
substituting non-strings, `IndexError`/`AttributeError` on malformed intrinsic
arguments) are `Except` errors. The `elif` arms of the source are split into
named branch handlers and the generic-dict traversal is written with its first
field inlined, so that every recursive call is on a structural subterm and the
definition unfolds arm by arm. -/
def resolve_refs_recursively (env : Env) (stack_name : String) (value : JVal)
    (resources : Resources) : Except String (JVal × Resources) :=
  match value with
  | .jobj .onil => .ok (.jobj .onil, resources)
  | .jobj (.ocons k v rest) =>
      if k == "Ref" && rest == .onil then resolveRefBranch env stack_name v resources
      else if lcString k == "fn::getatt" then resolveGetAttBranch env stack_name v resources
      else if lcString k == "fn::join" then resolveJoinBranch env stack_name v resources
      else if lcString k == "fn::sub" then resolveSubBranch env stack_name v resources
      else
        match resolve_refs_recursively env stack_name v resources with
        | .error e => .error e
        | .ok (v2, res1) =>
            match resolveObjFields env stack_name rest res1 with
            | .error e => .error e
            | .ok (rest2, res2) => .ok (.jobj (.ocons k v2 rest2), res2)
  | .jarr a =>
      match resolveArrItems env stack_name a resources with
      | .error e => .error e
      | .ok (a2, res1) => .ok (.jarr a2, res1)
  | v => .ok (v, resources)

/-- The `Fn::Join` arm (lines 799-805): resolve the operand list, fail on a
`None` operand, then join the (string) operands with the separator. -/
def resolveJoinBranch (env : Env) (stack_name : String) (v : JVal) (resources : Resources) :
    Except String (JVal × Resources) :=
  match v with
  | .jarr (.acons sepv (.acons (.jarr parts) _)) =>
      match resolveArrItems env stack_name parts resources with
      | .error e => .error e
      | .ok (vals, res1) =>
          if vals.containsV .jnull then .error joinNullError
          else
            match sepv with
            | .jstr sep =>
                match allStringsOf vals with
                | some strs => .ok (.jstr (joinSep sep strs), res1)
                | none => .error "TypeError"
            | _ => .error "AttributeError"
  | .jarr (.acons _ (.acons _ _)) => .error "TypeError"
  | _ => .error "IndexError"

/-- The `Fn::Sub` arm (lines 806-815): the two-element list form substitutes
exactly the keys of the explicit map (an empty map returns the template
unchanged, as the Python `for` loop body never runs), the bare-string form
substitutes the pseudo-parameters of `STATIC_REFS`. -/
def resolveSubBranch (env : Env) (stack_name : String) (v : JVal) (resources : Resources) :
    Except String (JVal × Resources) :=
  match v with
  | .jarr (.acons t (.acons (.jobj subs) _)) =>
      (match subs with
       | .onil => .ok (t, resources)
       | .ocons k2 v2 r2 =>
          match t with
          | .jstr text =>
              (match resolveSubPairs env stack_name (.ocons k2 v2 r2) text resources with
               | .error e => .error e
               | .ok (text2, res1) => .ok (.jstr text2, res1))
          | _ => .error "AttributeError")
  | .jarr (.acons _ (.acons _ _)) => .error "AttributeError"
  | .jarr _ => .error "IndexError"
  | .jstr text =>
      (match subPseudoRefs env stack_name STATIC_REFS text resources with
       | .error e => .error e
       | .ok (text2, res1) => .ok (.jstr text2, res1))
  | _ => .error "AttributeError"

/-- In-place traversal of a list (`for i in range(len(value)): value[i] = ...`),
threading the resource map left to right; also used for `Fn::Join` operand
resolution (the list comprehension at line 801). -/
def resolveArrItems (env : Env) (stack_name : String) (a : JArr) (resources : Resources) :
    Except String (JArr × Resources) :=
  match a with
  | .anil => .ok (.anil, resources)
  | .acons v rest =>
      match resolve_refs_recursively env stack_name v resources with
      | .error e => .error e
      | .ok (v2, res1) =>
          match resolveArrItems env stack_name rest res1 with
          | .error e => .error e
          | .ok (rest2, res2) => .ok (.acons v2 rest2, res2)

/-- In-place traversal of a generic dict (`for key, val in iteritems(value)`). -/
def resolveObjFields (env : Env) (stack_name : String) (o : JObj) (resources : Resources) :
    Except String (JObj × Resources) :=
  match o with
  | .onil => .ok (.onil, resources)
  | .ocons k v rest =>
      match resolve_refs_recursively env stack_name v resources with
      | .error e => .error e
      | .ok (v2, res1) =>
          match resolveObjFields env stack_name rest res1 with
          | .error e => .error e
          | .ok (rest2, res2) => .ok (.ocons k v2 rest2, res2)

/-- The explicit-map `Fn::Sub` substitution loop (lines 811-815): resolve each
substitution value, then replace `"$\x7bkey\x7d"` in the accumulated text; a
value that does not resolve to a string raises `TypeError` in `str.replace`. -/
def resolveSubPairs (env : Env) (stack_name : String) (subs : JObj) (text : String)
    (resources : Resources) : Except String (String × Resources) :=
  match subs with
  | .onil => .ok (text, resources)
  | .ocons key val rest =>
      match resolve_refs_recursively env stack_name val resources with
      | .error e => .error e
      | .ok (v2, res1) =>
          match v2 with
          | .jstr s =>
              resolveSubPairs env stack_name rest (replaceAll text ("$\x7b" ++ key ++ "\x7d") s) res1
          | _ => .error "TypeError"

end

/-!
Parameter-pipeline placeholder stage (source lines 511-532 and 985-996) and
action dispatch (lines 923-952).
-/

/-- Source `get_resource_name` (lines 511-532): the declared `Name` property if
truthy, else a type-specific name property (normalized through the
`s3_listener.normalize_bucket_name` collaborator for buckets), else `None`
(with a logged warning). -/
def get_resource_name (env : Env) (resource : JVal) : JVal :=
  let res_type := get_resource_type resource
  let properties :=
    match jget resource "Properties" with
    | some v => if jtruthy v then v else .jobj .onil
    | none => .jobj .onil
  let name := (jget properties "Name").getD .jnull
  if jtruthy name then name
  else if res_type == some "S3::Bucket" then
    env.normalizeBucketName ((jget properties "BucketName").getD .jnull)
  else if res_type == some "SQS::Queue" then (jget properties "QueueName").getD .jnull
  else if res_type == some "Cognito::UserPool" then (jget properties "PoolName").getD .jnull
  else if res_type == some "StepFunctions::StateMachine" then
    (jget properties "StateMachineName").getD .jnull
  else if res_type == some "IAM::Role" then (jget properties "RoleName").getD .jnull
  else .jnull

/-- The value `get_resource_name(resource) or resource_id` cached by
`fix_placeholders` (line 993). -/
def derivedResourceName (env : Env) (resource : JVal) (resource_id : String) : JVal :=
  let name := get_resource_name env resource
  if jtruthy name then name else .jstr resource_id

/-- State of the `resource_name_holder` cache during one
`configure_resource_via_sdk` invocation: the cached derived name, and how many
times the derivation has been invoked. -/
structure NameState where
  cache : Option JVal
  calls : Nat
  deriving DecidableEq

/-- One cache consultation (lines 992-994): derive on first use only. The
argument `names` supplies the value the `k`-th hypothetical derivation call
would return, modeling a derivation that need not be stable across calls; the
source derives at most once per invocation, so only `names 0` can ever be
stored. -/
def deriveCached (names : Nat → JVal) (st : NameState) : JVal × NameState :=
  match st.cache with
  | some n => (n, st)
  | none => (names st.calls, ⟨some (names st.calls), st.calls + 1⟩)

mutual

/-- Modelled from the spec: `common.recurse_object` lives in
`localstack/utils/common.py`, which is not part of the sources under
verification; per the specification (section 4.4, step 2) it applies
`fix_placeholders` to every node of the parameter tree. Combined with the
`fix_placeholders` body (lines 988-996), the effect is: every dict field whose
value is exactly the placeholder token is replaced by the cached derived name;
lists and nested dicts are traversed; placeholder strings that are not dict
values (for example list elements) are not replaced. The replacement value
produced by the derivation contains no placeholder token (it is a name string,
a name property value, or the logical id), on which the remaining traversal is
the identity, so the model does not descend into inserted values. -/
def fixPlaceholdersV (names : Nat → JVal) (v : JVal) (st : NameState) : JVal × NameState :=
  match v with
  | .jobj o =>
      match fixPlaceholdersObj names o st with
      | (o2, st2) => (.jobj o2, st2)
  | .jarr a =>
      match fixPlaceholdersArr names a st with
      | (a2, st2) => (.jarr a2, st2)
  | v => (v, st)

def fixPlaceholdersObj (names : Nat → JVal) (o : JObj) (st : NameState) : JObj × NameState :=
  match o with
  | .onil => (.onil, st)
  | .ocons k v rest =>
      if v == .jstr PLACEHOLDER_RESOURCE_NAME then
        match deriveCached names st with
        | (n, st1) =>
            match fixPlaceholdersObj names rest st1 with
            | (rest2, st2) => (.ocons k n rest2, st2)
      else
        match fixPlaceholdersV names v st with
        | (v2, st1) =>
            match fixPlaceholdersObj names rest st1 with
            | (rest2, st2) => (.ocons k v2 rest2, st2)

def fixPlaceholdersArr (names : Nat → JVal) (a : JArr) (st : NameState) : JArr × NameState :=
  match a with
  | .anil => (.anil, st)
  | .acons v rest =>
      match fixPlaceholdersV names v st with
      | (v2, st1) =>
          match fixPlaceholdersArr names rest st1 with
          | (rest2, st2) => (.acons v2 rest2, st2)

end

mutual

/-- Specification-side description of the placeholder stage: substitute the
single value `n` for every dict-field occurrence of the placeholder token. -/
def substPlaceholderV (n : JVal) : JVal → JVal
  | .jobj o => .jobj (substPlaceholderObj n o)
  | .jarr a => .jarr (substPlaceholderArr n a)
  | v => v

def substPlaceholderObj (n : JVal) : JObj → JObj
  | .onil => .onil
  | .ocons k v rest =>
      if v == .jstr PLACEHOLDER_RESOURCE_NAME then .ocons k n (substPlaceholderObj n rest)
      else .ocons k (substPlaceholderV n v) (substPlaceholderObj n rest)

def substPlaceholderArr (n : JVal) : JArr → JArr
  | .anil => .anil
  | .acons v rest => .acons (substPlaceholderV n v) (substPlaceholderArr n rest)

end

/-- The placeholder-replacement stage of one `configure_resource_via_sdk`
invocation (lines 985-996), with a fresh `resource_name_holder` and the
deterministic source derivation. -/
def fix_placeholders (env : Env) (resource : JVal) (resource_id : String) (params : JVal) : JVal :=
  (fixPlaceholdersV (fun _ => derivedResourceName env resource resource_id) params ⟨none, 0⟩).1

/-- Whether a registry entry carries the requested action key
(the negation of `not func_details or action_name not in func_details`,
line 935; every action key present in the source table maps to a truthy
value). -/
def registryHasAction (entry : RegistryEntry) (action_name : String) : Bool :=
  if action_name == ACTION_CREATE then entry.create
  else if action_name == ACTION_DELETE then entry.delete
  else false

/-- Source `execute_resource_action` (lines 931-952): when the resource type
has no registry entry, or the entry lacks the requested action, a warning is
logged and the function returns `None` without any provider interaction;
otherwise the action steps run through `get_client` and
`configure_resource_via_sdk`, abstracted as the `runAction` oracle. The result
carries the returned value and whether the provider-call loop was entered. -/
def execute_resource_action (env : Env) (resources : Resources) (resource_id : String)
    (action_name : String) : Except String (Option JVal × Bool) :=
  let resource := (List.lookup resource_id resources).getD .jnull
  let entry :=
    match get_resource_type resource with
    | none => none
    | some t => List.lookup t RESOURCE_TO_FUNCTION
  match entry with
  | none => .ok (none, false)
  | some e =>
      if !registryHasAction e action_name then .ok (none, false)
      else
        match env.runAction ((get_resource_type resource).getD "") action_name with
        | .error err => .error err
        | .ok r => .ok (r, true)

/-!
Concrete inputs used by the claim theorems, witnesses and counterexamples.
-/

def statusOf (pid : String) : JObj := .ocons "PhysicalResourceId" (.jstr pid) .onil

def baseEnv : Env :=
  { region := "us-east-1"
    stackParam := fun _ _ => none
    describeResource := fun _ _ => none
    fetchDetails := fun _ _ => none
    getFunction := fun _ => none
    apigwRoot := fun _ => none
    shortUid := "uid1"
    normalizeBucketName := fun v => v
    runAction := fun _ _ => .ok none }

/-- Environment in which resources `A` and `B` are deployed with physical ids
`a1` and `b1` (the stack snapshot reports them). -/
def envResolved : Env :=
  { baseEnv with
    describeResource := fun _ r =>
      if r == "A" then some (statusOf "a1")
      else if r == "B" then some (statusOf "b1") else none }

def refOf (r : String) : JVal := .jobj (.ocons "Ref" (.jstr r) .onil)

def joinExpr (sepv : JVal) (parts : JArr) : JVal :=
  .jobj (.ocons "Fn::Join" (.jarr (.acons sepv (.acons (.jarr parts) .anil))) .onil)

def partsAB : JArr := .acons (refOf "A") (.acons (refOf "B") .anil)

def subExprList (text : String) (subs : JObj) : JVal :=
  .jobj (.ocons "Fn::Sub" (.jarr (.acons (.jstr text) (.acons (.jobj subs) .anil))) .onil)

def subExprBare (text : String) : JVal := .jobj (.ocons "Fn::Sub" (.jstr text) .onil)

def queueRes : JVal := .jobj (.ocons "Type" (.jstr "AWS::SQS::Queue") .onil)

def queueResDep (dep : String) : JVal :=
  .jobj (.ocons "Type" (.jstr "AWS::SQS::Queue") (.ocons "DependsOn" (.jstr dep) .onil))

/-- The two-resource dependency cycle of claim C2: `A` depends on `B` and `B`
depends on `A`. -/
def cycRes : Resources := [("A", queueResDep "B"), ("B", queueResDep "A")]

/-- A resource dict used twice under different logical ids: `A` and `B` are
distinct resources with equal dict values (same type, and both declare
`DependsOn: ["B"]`). -/
def twinQueue : JVal :=
  .jobj (.ocons "Type" (.jstr "AWS::SQS::Queue")
    (.ocons "DependsOn" (.jarr (.acons (.jstr "B") .anil)) .onil))

def twinMap : Resources := [("A", twinQueue), ("B", twinQueue)]

/-- A resource of a type with no registry entry. -/
def unknownRes : JVal := .jobj (.ocons "Type" (.jstr "AWS::Custom::Thing") .onil)

/-- `A` (deployable) explicitly depends on `B`, whose type has no registry
entry (`B` is not deployable). -/
def depMap5 : Resources := [("A", queueResDep "B"), ("B", unknownRes)]

/-- An acyclic linear chain of eleven deployable resources:
`R1 <- R2 <- ... <- R11` (each depends on its predecessor). -/
def chain11 : Resources :=
  [("R1", queueRes),
   ("R2", queueResDep "R1"), ("R3", queueResDep "R2"), ("R4", queueResDep "R3"),
   ("R5", queueResDep "R4"), ("R6", queueResDep "R5"), ("R7", queueResDep "R6"),
   ("R8", queueResDep "R7"), ("R9", queueResDep "R8"), ("R10", queueResDep "R9"),
   ("R11", queueResDep "R10")]

/-- A topological ranking witnessing that the chain is acyclic. -/
def rank11 : String → Nat := fun id =>
  (List.lookup id
    [("R1", 1), ("R2", 2), ("R3", 3), ("R4", 4), ("R5", 5), ("R6", 6),
     ("R7", 7), ("R8", 8), ("R9", 9), ("R10", 10), ("R11", 11)]).getD 0

/-- A two-resource acyclic template: `B` depends on `A`. -/
def chainAB : Resources := [("A", queueRes), ("B", queueResDep "A")]

def rankAB : String → Nat := fun id => if id == "B" then 1 else 0

/-- A `Lambda::Function` resource with no declared `FunctionName`. -/
def lamRes : JVal :=
  .jobj (.ocons "Type" (.jstr "AWS::Lambda::Function")
    (.ocons "Properties" (.jobj .onil) .onil))

def lamMap : Resources := [("F", lamRes)]

/-- The same resource after `retrieve_resource_details` has written the
generated default `FunctionName` into its properties. -/
def lamResNamed : JVal :=
  .jobj (.ocons "Type" (.jstr "AWS::Lambda::Function")
    (.ocons "Properties"
      (.jobj (.ocons "FunctionName" (.jstr "mystack-lambda-uid1") .onil)) .onil))

def lamMapAfter : Resources := [("F", lamResNamed)]

/-- Environment whose stack snapshot knows `F` but carries no physical id, so
resolution proceeds to the provider query. -/
def envLam : Env :=
  { baseEnv with
    describeResource := fun _ r =>
      if r == "F" then some (.ocons "LogicalResourceId" (.jstr "F") .onil) else none }

/-- Environment in which only `Q` is deployed, with physical id `q1`. -/
def envQ : Env :=
  { baseEnv with
    describeResource := fun _ r => if r == "Q" then some (statusOf "q1") else none }

def qMap : Resources := [("Q", queueRes)]

def fooMap : Resources := [("X", .jobj (.ocons "Type" (.jstr "AWS::Foo::Bar") .onil))]

def regionPat : String := "$\x7bAWS::Region\x7d"

/-- Character-level shape of a substitution placeholder `"$\x7bname\x7d"`. -/
def subPat (body : List Char) : List Char := '$' :: '{' :: (body ++ ['}'])


/-- Specification-side: the name that placeholder occurrences receive when the
cache state is `st` — the cached name if one is stored, else the value the next
derivation call would produce. -/
def cacheVal (names : Nat → JVal) (st : NameState) : JVal :=
  match st.cache with
  | some n => n
  | none => names st.calls

/-!
Theorems. Helper lemmas come first, then one theorem per claim, each with its
witness or counterexample where required.
-/

theorem lookupRes_mem : ∀ (l : Resources) (k : String) (v : JVal),
    List.lookup k l = some v → (k, v) ∈ l := by
  intro l
  induction l with
  | nil => intro k v h; simp [List.lookup] at h
  | cons p rest ih =>
      intro k v h
      obtain ⟨a, b⟩ := p
      simp only [List.lookup] at h
      split at h
      · next heq =>
          cases h
          have hk : k = a := by simpa using heq
          subst hk
          exact List.mem_cons_self _ _
      · next hne => exact List.mem_cons_of_mem _ (ih k v h)

theorem mem_key_unique : ∀ (l : Resources), (l.map Prod.fst).Nodup →
    ∀ (k : String) (a b : JVal), (k, a) ∈ l → (k, b) ∈ l → a = b := by
  intro l
  induction l with
  | nil => intro _ k a b ha; simp at ha
  | cons p rest ih =>
      intro hnd k a b ha hb
      obtain ⟨pk, pv⟩ := p
      simp only [List.map_cons, List.nodup_cons] at hnd
      rcases List.mem_cons.mp ha with ha1 | ha1 <;> rcases List.mem_cons.mp hb with hb1 | hb1
      · injection ha1 with h1 h2
        injection hb1 with h3 h4
        rw [h2, h4]
      · injection ha1 with h1 h2
        exfalso
        apply hnd.1
        rw [← h1]
        simpa using List.mem_map_of_mem Prod.fst hb1
      · injection hb1 with h1 h2
        exfalso
        apply hnd.1
        rw [← h1]
        simpa using List.mem_map_of_mem Prod.fst ha1
      · exact ih hnd.2 k a b ha1 hb1

theorem lookup_of_mem_nodup : ∀ (l : Resources), (l.map Prod.fst).Nodup →
    ∀ (k : String) (v : JVal), (k, v) ∈ l → List.lookup k l = some v := by
  intro l
  induction l with
  | nil => intro _ k v h; simp at h
  | cons p rest ih =>
      intro hnd k v h
      obtain ⟨pk, pv⟩ := p
      simp only [List.map_cons, List.nodup_cons] at hnd
      rcases List.mem_cons.mp h with h1 | h1
      · injection h1 with h2 h3
        subst h2
        subst h3
        simp [List.lookup]
      · have hkne : (k == pk) = false := by
          apply beq_eq_false_iff_ne.mpr
          intro hk
          apply hnd.1
          rw [← hk]
          simpa using List.mem_map_of_mem Prod.fst h1
        simp only [List.lookup, hkne]
        exact ih hnd.2 k v h1

theorem resSet_fresh (k : String) (v : JVal) : ∀ (acc : Resources),
    k ∉ acc.map Prod.fst → resSet k v acc = acc ++ [(k, v)] := by
  intro acc
  induction acc with
  | nil => intro _; rfl
  | cons p rest ih =>
      intro h
      simp only [List.map_cons, List.mem_cons, not_or] at h
      simp only [resSet]
      rw [if_neg (by simpa using fun he => h.1 he.symm)]
      rw [ih h.2]
      rfl

theorem resSet_app (k : String) (v : JVal) : ∀ (acc : Resources),
    k ∉ acc.map Prod.fst → resSet k v (acc ++ [(k, v)]) = acc ++ [(k, v)] := by
  intro acc
  induction acc with
  | nil => intro _; simp [resSet]
  | cons p rest ih =>
      intro h
      simp only [List.map_cons, List.mem_cons, not_or] at h
      simp only [List.cons_append, resSet]
      rw [if_neg (by simpa using fun he => h.1 he.symm)]
      congr 1
      exact ih h.2

theorem fold_insert_eq_filter (pred : String × JVal → Bool)
    (f : Resources → String × JVal → Resources)
    (hf : ∀ (acc : Resources) (p : String × JVal), p.1 ∉ acc.map Prod.fst →
        f acc p = if pred p then acc ++ [(p.1, p.2)] else acc) :
    ∀ (l acc : Resources), (l.map Prod.fst).Nodup →
      (∀ k, k ∈ l.map Prod.fst → k ∉ acc.map Prod.fst) →
      List.foldl f acc l = acc ++ l.filter pred := by
  intro l
  induction l with
  | nil => intro acc _ _; simp
  | cons p rest ih =>
      intro acc hnd hfresh
      simp only [List.map_cons, List.nodup_cons] at hnd
      have hp_fresh : p.1 ∉ acc.map Prod.fst := hfresh p.1 (by simp)
      have hrest_fresh : ∀ k, k ∈ rest.map Prod.fst → k ∉ acc.map Prod.fst :=
        fun k hk => hfresh k (by simp [hk])
      have hrest_fresh2 : ∀ k, k ∈ rest.map Prod.fst → k ∉ (acc ++ [(p.1, p.2)]).map Prod.fst := by
        intro k hk
        simp only [List.map_append, List.mem_append]
        intro hmem
        rcases hmem with hmem | hmem
        · exact hrest_fresh k hk hmem
        · simp only [List.map_cons, List.map_nil, List.mem_singleton] at hmem
          exact hnd.1 (hmem ▸ hk)
      rw [List.foldl_cons, List.filter_cons, hf acc p hp_fresh]
      cases hc : pred p
      · have h1 : (if (false : Bool) then acc ++ [(p.1, p.2)] else acc) = acc := by simp
        rw [h1, ih acc hnd.2 hrest_fresh]
        simp
      · have h1 : (if (true : Bool) then acc ++ [(p.1, p.2)] else acc) = acc ++ [(p.1, p.2)] := by
          simp
        rw [h1, ih (acc ++ [(p.1, p.2)]) hnd.2 hrest_fresh2]
        have hp : (p.1, p.2) = p := rfl
        simp [List.append_assoc, hp]

theorem get_deps_eq_amended (resource_id : String) (resource : JVal) (resources : Resources)
    (hnd : (resources.map Prod.fst).Nodup) :
    get_resource_dependencies resource_id resource resources =
      amended_dependency_set resource_id resource resources := by
  have hf : ∀ (acc : Resources) (p : String × JVal), p.1 ∉ acc.map Prod.fst →
      (if resource != p.2 then
          let result2 :=
            if strContains (jsonDumps resource) (refSearch1 p.1) ||
                strContains (jsonDumps resource) (refSearch2 p.1) then
              resSet p.1 p.2 acc
            else acc
          if (dependsOnList resource).contains (.jstr p.1) then resSet p.1 p.2 result2 else result2
        else acc)
      = if resource != p.2 &&
            (strContains (jsonDumps resource) (refSearch1 p.1) ||
              strContains (jsonDumps resource) (refSearch2 p.1) ||
              (dependsOnList resource).contains (.jstr p.1)) then
          acc ++ [(p.1, p.2)]
        else acc := by
    intro acc p hp
    cases hne : (resource != p.2) <;>
      cases h1 : strContains (jsonDumps resource) (refSearch1 p.1) <;>
      cases h2 : strContains (jsonDumps resource) (refSearch2 p.1) <;>
      cases hd : (dependsOnList resource).contains (.jstr p.1) <;>
      simp [hne, h1, h2, hd, resSet_fresh p.1 p.2 acc hp, resSet_app p.1 p.2 acc hp]
  have h := fold_insert_eq_filter
    (fun p => resource != p.2 &&
      (strContains (jsonDumps resource) (refSearch1 p.1) ||
        strContains (jsonDumps resource) (refSearch2 p.1) ||
        (dependsOnList resource).contains (.jstr p.1)))
    (fun result p =>
      if resource != p.2 then
        let result2 :=
          if strContains (jsonDumps resource) (refSearch1 p.1) ||
              strContains (jsonDumps resource) (refSearch2 p.1) then
            resSet p.1 p.2 result
          else result
        if (dependsOnList resource).contains (.jstr p.1) then resSet p.1 p.2 result2 else result2
      else result)
    hf resources [] hnd (by simp)
  exact h.trans (List.nil_append _)

theorem deps_mem (resource_id : String) (resource : JVal) (resources : Resources)
    (hnd : (resources.map Prod.fst).Nodup) :
    ∀ q ∈ get_resource_dependencies resource_id resource resources, q ∈ resources := by
  intro q hq
  rw [get_deps_eq_amended resource_id resource resources hnd] at hq
  exact (List.mem_filter.mp hq).1

theorem deps_self_not_mem (resource_id : String) (resource : JVal) (resources : Resources)
    (hnd : (resources.map Prod.fst).Nodup) (hmem : (resource_id, resource) ∈ resources) :
    ((get_resource_dependencies resource_id resource resources).map Prod.fst).contains
      resource_id = false := by
  rw [get_deps_eq_amended resource_id resource resources hnd]
  by_contra hc
  have hc2 : resource_id ∈ (amended_dependency_set resource_id resource resources).map Prod.fst := by
    have := Bool.of_not_eq_false hc
    simpa [List.elem_iff] using this
  rcases List.mem_map.mp hc2 with ⟨q, hq, hkey⟩
  have hqf := List.mem_filter.mp hq
  have hval : q.2 = resource := by
    have : (resource_id, q.2) ∈ resources := by
      have : q = (resource_id, q.2) := by
        cases q
        simp_all
      rw [← this]
      exact hqf.1
    exact (mem_key_unique resources hnd resource_id q.2 resource this hmem).symm ▸ rfl
  have hne := (Bool.and_eq_true_iff.mp hqf.2).1
  rw [hval] at hne
  simp at hne

/-- C4 counterexample: for the map `{A: r, B: r}` in which the distinct
resources `A` and `B` share one dict value `r` (both declaring
`DependsOn: ["B"]`), the claim predicts that the dependency set of `A` contains
`B` (an explicit `DependsOn` entry, and `B` is not `A`), but the code computes
the empty set: its guard `resource != other` compares dict values, so the
value-identical `B` is skipped. -/
theorem c4_counterexample :
    get_resource_dependencies "A" twinQueue twinMap ≠ claim_dependency_set "A" twinQueue twinMap ∧
    get_resource_dependencies "A" twinQueue twinMap = [] ∧
    claim_dependency_set "A" twinQueue twinMap = [("B", twinQueue)] := by decide

/-- C4 (amended): for every resource and resource map with distinct logical
ids, the computed dependency set equals the union of the explicit `DependsOn`
entries and the resources whose logical id occurs as the target of a serialized
`Ref`/`Fn::GetAtt` pattern — excluding every map entry whose dict value equals
the resource itself (not merely the resource); in particular the resource is
never a member of its own dependency set. -/
theorem c4_dependency_set :
    (∀ (resource_id : String) (resource : JVal) (resources : Resources),
        (resources.map Prod.fst).Nodup →
        get_resource_dependencies resource_id resource resources =
          amended_dependency_set resource_id resource resources) ∧
    (∀ (resource_id : String) (resource : JVal) (resources : Resources),
        (resources.map Prod.fst).Nodup → (resource_id, resource) ∈ resources →
        ((get_resource_dependencies resource_id resource resources).map Prod.fst).contains
          resource_id = false) :=
  ⟨get_deps_eq_amended, deps_self_not_mem⟩

/-- Witness for C4: the amended characterization evaluated on the two-resource
chain, applied at resource `B`. -/
theorem c4_witness :
    (get_resource_dependencies "B" (queueResDep "A") chainAB =
        amended_dependency_set "B" (queueResDep "A") chainAB) ∧
    ((get_resource_dependencies "B" (queueResDep "A") chainAB).map Prod.fst).contains "B" = false :=
  ⟨c4_dependency_set.1 "B" (queueResDep "A") chainAB (by decide),
   c4_dependency_set.2 "B" (queueResDep "A") chainAB (by decide) (by decide)⟩

theorem deployIter_outcome (resources : Resources) : ∀ (fuel : Nat) (deployed lastNext : List String),
    (∃ d, deployIter resources fuel deployed lastNext = .fixedPoint d) ∨
    (∃ nx d, deployIter resources fuel deployed lastNext = .exhausted nx d) := by
  intro fuel
  induction fuel with
  | zero => intro d l; exact .inr ⟨l, d, rfl⟩
  | succ n ih =>
      intro d l
      simp only [deployIter]
      split
      · exact .inl ⟨d, rfl⟩
      · exact ih _ _

/-- C2 (amended): the deployment loop always terminates with one of its three
exits (missing resources, the silent empty-frontier return, or the exhaustion
warning after ten nonempty frontiers). A template with a dependency cycle
(`A` depends on `B`, `B` depends on `A`) terminates at the *first* iteration,
whose ready set is already empty: the silent fixed-point return, with neither
`A` nor `B` deployed and no pending-resource report — not the
`MaxIterationsExceeded` exhaustion path the claim describes. -/
theorem c2_cycle_terminates :
    (∀ (resources : Resources) (deployed : List String),
        deploy_template resources deployed = .noResources ∨
        (∃ d, deploy_template resources deployed = .fixedPoint d) ∨
        (∃ nx d, deploy_template resources deployed = .exhausted nx d)) ∧
    deploy_template cycRes [] = .fixedPoint [] ∧
    (resultDeployed (deploy_template cycRes [])).contains "A" = false ∧
    (resultDeployed (deploy_template cycRes [])).contains "B" = false := by
  refine ⟨?_, by decide, by decide, by decide⟩
  intro resources deployed
  unfold deploy_template
  split
  · exact .inl rfl
  · rcases deployIter_outcome resources 10 deployed (resources.map Prod.fst) with h | h
    · exact .inr (.inl h)
    · exact .inr (.inr h)

/-- C2 counterexample: on the `A`/`B` cycle the loop does not reach iteration
exhaustion and reports nothing: the first computed ready set is empty, so
`deploy_template` returns silently with both resources undeployed, instead of
terminating at the claimed `MaxIterationsExceeded` report listing `A` and `B`
as pending. -/
theorem c2_counterexample :
    deploy_template cycRes [] = .fixedPoint [] ∧
    deploy_template cycRes [] ≠ .exhausted ["A", "B"] [] ∧
    (resultDeployed (deploy_template cycRes [])).contains "A" = false ∧
    (resultDeployed (deploy_template cycRes [])).contains "B" = false := by decide

/-- C8: every bare-string `Fn::Sub` implicitly substitutes the
pseudo-parameters: for every environment, stack name, template string and
resource map, resolution succeeds and returns the string with
`$\x7bAWS::Region\x7d` replaced by the context region, `$\x7bAWS::Partition\x7d`
by `aws` and `$\x7bAWS::StackName\x7d` by the stack name (in the `STATIC_REFS`
order of the source), leaving the resource map unchanged — an equation in the
context, so the result is deterministic given the context; concretely, with
partition `aws` and region `us-east-1`,
`arn:$\x7bAWS::Partition\x7d:s3:::$\x7bAWS::Region\x7d-bucket` resolves to
`arn:aws:s3:::us-east-1-bucket`. -/
theorem c8_sub_pseudo :
    (∀ (env : Env) (stack_name : String) (text : String) (res : Resources),
        resolve_refs_recursively env stack_name (subExprBare text) res =
          .ok (.jstr (replaceAll (replaceAll (replaceAll text
                  "$\x7bAWS::Region\x7d" env.region)
                "$\x7bAWS::Partition\x7d" "aws")
              "$\x7bAWS::StackName\x7d" stack_name), res)) ∧
    resolve_refs_recursively envResolved "stack"
        (subExprBare "arn:$\x7bAWS::Partition\x7d:s3:::$\x7bAWS::Region\x7d-bucket") [] =
      .ok (.jstr "arn:aws:s3:::us-east-1-bucket", []) :=
  ⟨fun env stack_name text res => rfl, by decide⟩

theorem should_be_deployed_iff (resources : Resources) (deployed : List String)
    (resource_id : String) (resource : JVal)
    (hlk : List.lookup resource_id resources = some resource) :
    should_be_deployed resource_id resources deployed = true ↔
      (is_deployable_resource resource = true ∧ deployed.contains resource_id = false ∧
        ∀ q ∈ get_resource_dependencies resource_id resource resources,
          is_deployable_resource q.2 = true → deployed.contains q.1 = true) := by
  unfold should_be_deployed all_resource_dependencies_satisfied all_dependencies_satisfied is_deployed
  rw [hlk]
  cases hdep : is_deployable_resource resource <;> cases hdl : deployed.contains resource_id <;>
    simp [hdep, hdl, List.all_eq_true]
  constructor
  · intro h a b hm hdep2
    rcases h a b hm with h1 | h1
    · rw [hdep2] at h1
      cases h1
    · exact h1
  · intro h a b hm
    cases hd2 : is_deployable_resource b
    · exact Or.inl rfl
    · exact Or.inr (h a b hm hd2)

theorem should_be_deployed_not_deployed (resource_id : String) (resources : Resources)
    (deployed : List String) (h : should_be_deployed resource_id resources deployed = true) :
    deployed.contains resource_id = false := by
  unfold should_be_deployed is_deployed at h
  cases hlk : List.lookup resource_id resources with
  | none => rw [hlk] at h; simp at h
  | some r =>
      rw [hlk] at h
      cases hc : deployed.contains resource_id
      · rfl
      · rw [hc] at h
        simp at h

theorem ready_set_not_deployed (resources : Resources) (deployed : List String)
    (p : String × JVal) (h : p ∈ resources_to_deploy_next resources deployed) :
    deployed.contains p.1 = false := by
  have hs := (List.mem_filter.mp h).2
  exact should_be_deployed_not_deployed p.1 resources deployed hs

/-- C5 (amended): a resource the state collaborator reports present is never in
the ready set, and a resource enters the ready set exactly when it is of a
known deployable type, not already deployed, and every *deployable* dependency
of it is already deployed — a dependency that is itself not deployable (for
example of an unknown type) is not required to be deployed, contrary to the
claim's "every one of its dependencies". -/
theorem c5_ready_set :
    (∀ (resources : Resources) (deployed : List String) (resource_id : String) (resource : JVal),
        List.lookup resource_id resources = some resource →
        (should_be_deployed resource_id resources deployed = true ↔
          (is_deployable_resource resource = true ∧ deployed.contains resource_id = false ∧
            ∀ q ∈ get_resource_dependencies resource_id resource resources,
              is_deployable_resource q.2 = true → deployed.contains q.1 = true))) ∧
    (∀ (resources : Resources) (deployed : List String) (p : String × JVal),
        p ∈ resources_to_deploy_next resources deployed → deployed.contains p.1 = false) :=
  ⟨should_be_deployed_iff, ready_set_not_deployed⟩

/-- C5 counterexample: `A` (a queue) explicitly depends on `B`, whose type has
no registry entry; `B` is not deployed, yet `A` is in the ready set — the
dependency check skips non-deployable dependencies, so "every one of its
dependencies is already deployed" does not hold of ready resources. -/
theorem c5_counterexample :
    ("A", queueResDep "B") ∈ resources_to_deploy_next depMap5 [] ∧
    ("B", unknownRes) ∈ get_resource_dependencies "A" (queueResDep "B") depMap5 ∧
    is_deployed "B" [] = false := by decide

/-- Witness for C5: the characterization applied to the two-resource chain with
`A` deployed puts `B` in the ready set. -/
theorem c5_witness : should_be_deployed "B" chainAB ["A"] = true :=
  (c5_ready_set.1 chainAB ["A"] "B" (queueResDep "A") (by decide)).mpr
    ⟨by decide, by decide, by decide⟩

/-- C7: when a resource's type has no registry entry (including the untyped
case), or the entry lacks the requested action, `execute_resource_action` logs
and returns `None` without entering the provider-call loop and without an
exception, and such a resource is permanently skipped by the scheduler
(`is_deployable_resource` is false when the type has no entry). -/
theorem c7_not_implemented :
    (∀ (env : Env) (resources : Resources) (resource_id action_name : String) (resource : JVal),
        List.lookup resource_id resources = some resource →
        (∀ t, get_resource_type resource = some t →
          ∀ e, List.lookup t RESOURCE_TO_FUNCTION = some e →
            registryHasAction e action_name = false) →
        execute_resource_action env resources resource_id action_name = .ok (none, false)) ∧
    (∀ (resource : JVal) (t : String), get_resource_type resource = some t →
        List.lookup t RESOURCE_TO_FUNCTION = none → is_deployable_resource resource = false) := by
  constructor
  · intro env resources rid action r hlk hna
    unfold execute_resource_action
    rw [hlk]
    simp only [Option.getD_some]
    cases ht : get_resource_type r with
    | none => simp
    | some t =>
        cases he : List.lookup t RESOURCE_TO_FUNCTION with
        | none => simp [he]
        | some e =>
            have hflag := hna t ht e he
            simp [he, hflag]
  · intro r t ht he
    unfold is_deployable_resource
    rw [ht]
    simp [he]

/-- Witness for C7: executing `create` for a resource of the unregistered type
`Foo::Bar` returns `None` with no provider call and no exception. -/
theorem c7_witness : execute_resource_action baseEnv fooMap "X" "create" = .ok (none, false) :=
  c7_not_implemented.1 baseEnv fooMap "X" "create"
    (.jobj (.ocons "Type" (.jstr "AWS::Foo::Bar") .onil)) (by decide)
    (by
      intro t ht e he
      rw [show get_resource_type (.jobj (.ocons "Type" (.jstr "AWS::Foo::Bar") .onil)) =
        some "Foo::Bar" from by decide] at ht
      cases ht
      rw [show List.lookup "Foo::Bar" RESOURCE_TO_FUNCTION = none from by decide] at he
      cases he)

theorem exists_min_key (g : String → Nat) : ∀ (l : Resources), l ≠ [] →
    ∃ m ∈ l, ∀ x ∈ l, g m.1 ≤ g x.1 := by
  intro l
  induction l with
  | nil => intro h; exact absurd rfl h
  | cons p rest ih =>
      intro _
      by_cases hrest : rest = []
      · refine ⟨p, by simp, ?_⟩
        intro x hx
        rw [hrest] at hx
        simp at hx
        rw [hx]
      · rcases ih hrest with ⟨m, hm, hmin⟩
        by_cases hc : g p.1 ≤ g m.1
        · refine ⟨p, by simp, ?_⟩
          intro x hx
          rcases List.mem_cons.mp hx with h | h
          · rw [h]
          · exact le_trans hc (hmin x h)
        · refine ⟨m, List.mem_cons_of_mem _ hm, ?_⟩
          intro x hx
          rcases List.mem_cons.mp hx with h | h
          · rw [h]
            omega
          · exact hmin x h

theorem frontier_progress (resources : Resources) (rank : String → Nat) (deployed : List String)
    (hnd : (resources.map Prod.fst).Nodup)
    (hdep : ∀ p ∈ resources, is_deployable_resource p.2 = true)
    (hrank : ∀ p ∈ resources, ∀ q ∈ get_resource_dependencies p.1 p.2 resources,
      rank q.1 < rank p.1)
    (hne : ∃ p ∈ resources, deployed.contains p.1 = false) :
    resources_to_deploy_next resources deployed ≠ [] := by
  rcases hne with ⟨p0, hp0, hp0nd⟩
  have hU : (resources.filter fun p => !deployed.contains p.1) ≠ [] :=
    List.ne_nil_of_mem (List.mem_filter.mpr ⟨hp0, by rw [hp0nd]; rfl⟩)
  rcases exists_min_key rank _ hU with ⟨m, hmU, hmin⟩
  have hmmem : m ∈ resources := (List.mem_filter.mp hmU).1
  have hmnd : deployed.contains m.1 = false := by
    have := (List.mem_filter.mp hmU).2
    simpa using this
  have hlk : List.lookup m.1 resources = some m.2 :=
    lookup_of_mem_nodup resources hnd m.1 m.2 (by cases m; exact hmmem)
  have hsbd : should_be_deployed m.1 resources deployed = true := by
    apply (should_be_deployed_iff resources deployed m.1 m.2 hlk).mpr
    refine ⟨hdep m hmmem, hmnd, ?_⟩
    intro q hq _
    cases hqd : deployed.contains q.1
    · exfalso
      have hqres : q ∈ resources := deps_mem m.1 m.2 resources hnd q hq
      have hqU : q ∈ resources.filter (fun p => !deployed.contains p.1) :=
        List.mem_filter.mpr ⟨hqres, by rw [hqd]; rfl⟩
      have h1 : rank m.1 ≤ rank q.1 := hmin q hqU
      have h2 : rank q.1 < rank m.1 := hrank m hmmem q hq
      omega
    · rfl
  exact List.ne_nil_of_mem (List.mem_filter.mpr ⟨hmmem, hsbd⟩)

theorem filter_length_lt : ∀ (l : List String) (p : String → Bool) (a : String),
    a ∈ l → p a = false → (l.filter p).length < l.length := by
  intro l p a
  induction l with
  | nil => intro h _; simp at h
  | cons b rest ih =>
      intro hmem hpa
      rcases List.mem_cons.mp hmem with h | h
      · subst h
        have hfc : List.filter p (a :: rest) = List.filter p rest := by
          simp [List.filter_cons, hpa]
        rw [hfc]
        have := List.length_filter_le p rest
        simp only [List.length_cons]
        omega
      · cases hpb : p b
        · have hfc : List.filter p (b :: rest) = List.filter p rest := by
            simp [List.filter_cons, hpb]
          rw [hfc]
          have := ih h hpa
          simp only [List.length_cons]
          omega
        · have hfc : List.filter p (b :: rest) = b :: List.filter p rest := by
            simp [List.filter_cons, hpb]
          rw [hfc]
          have := ih h hpa
          simp only [List.length_cons]
          omega

theorem count_decrease (resources : Resources) (deployed : List String)
    (hne : resources_to_deploy_next resources deployed ≠ []) :
    undeployedCount resources
        (deployed ++ (resources_to_deploy_next resources deployed).map Prod.fst) <
      undeployedCount resources deployed := by
  obtain ⟨f, hf⟩ := List.exists_mem_of_ne_nil _ hne
  have hfres : f ∈ resources := (List.mem_filter.mp hf).1
  have hfsbd : should_be_deployed f.1 resources deployed = true := (List.mem_filter.mp hf).2
  have hfkey : f.1 ∈ resources.map Prod.fst := List.mem_map_of_mem Prod.fst hfres
  have hfnd : deployed.contains f.1 = false := should_be_deployed_not_deployed _ _ _ hfsbd
  have hfmem : f.1 ∈ deployed ++ (resources_to_deploy_next resources deployed).map Prod.fst :=
    List.mem_append_right _ (List.mem_map_of_mem Prod.fst hf)
  have hfnew : (deployed ++
      (resources_to_deploy_next resources deployed).map Prod.fst).contains f.1 = true :=
    List.elem_iff.mpr hfmem
  unfold undeployedCount
  have hAB : (resources.map Prod.fst).filter
        (fun id =>
          !(deployed ++ (resources_to_deploy_next resources deployed).map Prod.fst).contains id)
      = ((resources.map Prod.fst).filter (fun id => !deployed.contains id)).filter
        (fun id =>
          !(deployed ++ (resources_to_deploy_next resources deployed).map Prod.fst).contains id) := by
    rw [List.filter_filter]
    apply List.filter_congr
    intro id _
    cases hd : deployed.contains id
    · cases hdn2 : (deployed ++
          (resources_to_deploy_next resources deployed).map Prod.fst).contains id <;> rfl
    · have hdn : (deployed ++
          (resources_to_deploy_next resources deployed).map Prod.fst).contains id = true :=
        List.elem_iff.mpr (List.mem_append_left _ (List.elem_iff.mp hd))
      rw [hdn]
      rfl
  rw [hAB]
  apply filter_length_lt _ _ f.1
  · exact List.mem_filter.mpr ⟨hfkey, by rw [hfnd]; rfl⟩
  · rw [hfnew]
    rfl

theorem deployIter_all_deployed (resources : Resources) (rank : String → Nat)
    (hnd : (resources.map Prod.fst).Nodup)
    (hdep : ∀ p ∈ resources, is_deployable_resource p.2 = true)
    (hrank : ∀ p ∈ resources, ∀ q ∈ get_resource_dependencies p.1 p.2 resources,
      rank q.1 < rank p.1) :
    ∀ (fuel : Nat) (deployed lastNext : List String),
      undeployedCount resources deployed ≤ fuel →
      ∀ id ∈ resources.map Prod.fst,
        (resultDeployed (deployIter resources fuel deployed lastNext)).contains id = true := by
  intro fuel
  induction fuel with
  | zero =>
      intro deployed lastNext hcount id hid
      have h0 : ((resources.map Prod.fst).filter (fun i => !deployed.contains i)) = [] := by
        have hl := Nat.le_zero.mp hcount
        unfold undeployedCount at hl
        exact List.length_eq_zero.mp hl
      cases hc : deployed.contains id
      · exfalso
        have hmem : id ∈ (resources.map Prod.fst).filter (fun i => !deployed.contains i) :=
          List.mem_filter.mpr ⟨hid, by rw [hc]; rfl⟩
        rw [h0] at hmem
        simp at hmem
      · simpa [deployIter, resultDeployed] using hc
  | succ n ih =>
      intro deployed lastNext hcount id hid
      simp only [deployIter]
      cases hnx : (resources_to_deploy_next resources deployed).isEmpty
      · have hne2 : resources_to_deploy_next resources deployed ≠ [] := by
          intro hnil
          rw [hnil] at hnx
          simp at hnx
        have hdec := count_decrease resources deployed hne2
        rw [if_neg (by simp [hnx])]
        exact ih _ _ (by omega) id hid
      · rw [if_pos (by simp [hnx])]
        cases hc : deployed.contains id
        · exfalso
          rcases List.mem_map.mp hid with ⟨p, hp, hpid⟩
          have hprog := frontier_progress resources rank deployed hnd hdep hrank
            ⟨p, hp, by rw [hpid]; exact hc⟩
          exact hprog (List.isEmpty_iff.mp hnx)
        · simpa [resultDeployed] using hc

theorem deploySteps_all_deployed (resources : Resources) (rank : String → Nat)
    (hnd : (resources.map Prod.fst).Nodup)
    (hdep : ∀ p ∈ resources, is_deployable_resource p.2 = true)
    (hrank : ∀ p ∈ resources, ∀ q ∈ get_resource_dependencies p.1 p.2 resources,
      rank q.1 < rank p.1) :
    ∀ (k : Nat) (deployed : List String),
      undeployedCount resources deployed ≤ k →
      ∀ id ∈ resources.map Prod.fst, (deploySteps resources k deployed).contains id = true := by
  intro k
  induction k with
  | zero =>
      intro deployed hcount id hid
      have h0 : ((resources.map Prod.fst).filter (fun i => !deployed.contains i)) = [] := by
        have hl := Nat.le_zero.mp hcount
        unfold undeployedCount at hl
        exact List.length_eq_zero.mp hl
      cases hc : deployed.contains id
      · exfalso
        have hmem : id ∈ (resources.map Prod.fst).filter (fun i => !deployed.contains i) :=
          List.mem_filter.mpr ⟨hid, by rw [hc]; rfl⟩
        rw [h0] at hmem
        simp at hmem
      · simpa [deploySteps] using hc
  | succ n ih =>
      intro deployed hcount id hid
      simp only [deploySteps]
      cases hemp : (resources_to_deploy_next resources deployed).isEmpty
      · have hne2 : resources_to_deploy_next resources deployed ≠ [] := by
          intro hnil
          rw [hnil] at hemp
          simp at hemp
        have hdec := count_decrease resources deployed hne2
        exact ih _ (by omega) id hid
      · have hnil : resources_to_deploy_next resources deployed = [] := List.isEmpty_iff.mp hemp
        have hzero : undeployedCount resources deployed = 0 := by
          by_contra hnz
          have hpos : 0 < undeployedCount resources deployed := Nat.pos_of_ne_zero hnz
          unfold undeployedCount at hpos
          rcases List.exists_mem_of_ne_nil _ (List.ne_nil_of_length_pos hpos) with ⟨i, hi⟩
          have hif := List.mem_filter.mp hi
          rcases List.mem_map.mp hif.1 with ⟨p, hp, hpid⟩
          have hic : deployed.contains i = false := by simpa using hif.2
          have hprog := frontier_progress resources rank deployed hnd hdep hrank
            ⟨p, hp, by rw [hpid]; exact hic⟩
          exact hprog hnil
        rw [hnil]
        have hcz : undeployedCount resources (deployed ++ ([] : Resources).map Prod.fst) ≤ n := by
          simp only [List.map_nil, List.append_nil]
          omega
        exact ih _ hcz id hid

/-- C1 (amended): for an acyclic template (witnessed by a topological ranking
of the computed dependency graph) of `N` deployable resources with distinct
logical ids, where `N` does not exceed the hardcoded iteration budget of 10,
`deploy_template` ends with all `N` resources deployed, and the state with all
`N` deployed is already reached within `N` iterations of the loop body (each
iteration deploys the whole current topological frontier). The budget bound is
forced by the source's `iters = 10`: see the counterexample, an acyclic chain
of 11 resources whose last resource is never deployed. -/
theorem c1_acyclic_deploys_all (resources : Resources) (rank : String → Nat)
    (hnd : (resources.map Prod.fst).Nodup)
    (hdep : ∀ p ∈ resources, is_deployable_resource p.2 = true)
    (hrank : ∀ p ∈ resources, ∀ q ∈ get_resource_dependencies p.1 p.2 resources,
      rank q.1 < rank p.1)
    (hN : resources.length ≤ 10) :
    (∀ id ∈ resources.map Prod.fst,
      (deploySteps resources resources.length []).contains id = true) ∧
    (∀ id ∈ resources.map Prod.fst,
      (resultDeployed (deploy_template resources [])).contains id = true) := by
  have hcount : undeployedCount resources [] = resources.length := by
    unfold undeployedCount
    simp
  constructor
  · intro id hid
    exact deploySteps_all_deployed resources rank hnd hdep hrank resources.length []
      (by omega) id hid
  · intro id hid
    unfold deploy_template
    cases hre : resources.isEmpty
    · rw [if_neg (by simp [hre])]
      exact deployIter_all_deployed resources rank hnd hdep hrank 10 [] _
        (by omega) id hid
    · exfalso
      rw [List.isEmpty_iff.mp hre] at hid
      simp at hid

/-- Witness for C1: the two-resource chain (`B` depends on `A`) is fully
deployed by `deploy_template`. -/
theorem c1_witness : (resultDeployed (deploy_template chainAB [])).contains "B" = true :=
  (c1_acyclic_deploys_all chainAB rankAB (by decide) (by decide) (by decide)
    (by decide)).2 "B" (by decide)

/-- C1 counterexample: an acyclic chain of 11 deployable resources (ranked by
`rank11`, so the dependency graph is acyclic as the claim requires). Each of
the 10 iterations deploys exactly the current frontier, so the hardcoded
budget `iters = 10` runs out with `R11` still undeployed: `deploy_template`
does not end with all `N` resources deployed for every `N`. -/
theorem c1_counterexample :
    (chain11.all fun p => is_deployable_resource p.2) = true ∧
    (chain11.all fun p =>
      (get_resource_dependencies p.1 p.2 chain11).all fun q =>
        decide (rank11 q.1 < rank11 p.1)) = true ∧
    (resultDeployed (deploy_template chain11 [])).contains "R11" = false := by decide

/-- C3: an `Fn::Join` whose recursively resolved operand list contains an
absent value (`None`) fails with the unresolved-dependency error — a partial
join is never silently produced — and once the referenced resources are
deployed with physical ids `a1` and `b1`, joining `Ref A` and `Ref B` with
separator `-` yields `a1-b1`. -/
theorem c3_join_strict :
    (∀ (env : Env) (stack_name : String) (res : Resources) (sepv : JVal) (parts : JArr)
        (vals : JArr) (res1 : Resources),
        resolveArrItems env stack_name parts res = .ok (vals, res1) →
        vals.containsV .jnull = true →
        resolve_refs_recursively env stack_name (joinExpr sepv parts) res = .error joinNullError) ∧
    resolve_refs_recursively envResolved "stack" (joinExpr (.jstr "-") partsAB) [] =
      .ok (.jstr "a1-b1", []) := by
  constructor
  · intro env stack_name res sepv parts vals res1 hArr hnull
    have hstep : resolve_refs_recursively env stack_name (joinExpr sepv parts) res =
        (match resolveArrItems env stack_name parts res with
         | .error e => .error e
         | .ok (vals2, res2) =>
             if vals2.containsV .jnull then .error joinNullError
             else
               match sepv with
               | .jstr sep =>
                   (match allStringsOf vals2 with
                    | some strs => .ok (.jstr (joinSep sep strs), res2)
                    | none => .error "TypeError")
               | _ => .error "AttributeError") := rfl
    rw [hstep, hArr]
    simp [hnull]
  · decide

/-- Witness for C3: with nothing deployed, both `Ref` operands resolve to
`None` and the join raises the unresolved-dependency error. -/
theorem c3_witness :
    resolveArrItems baseEnv "stack" partsAB [] = .ok (.acons .jnull (.acons .jnull .anil), []) ∧
    resolve_refs_recursively baseEnv "stack" (joinExpr (.jstr "-") partsAB) [] =
      .error joinNullError :=
  ⟨by decide,
   c3_join_strict.1 baseEnv "stack" [] (.jstr "-") partsAB
     (.acons .jnull (.acons .jnull .anil)) [] (by decide) (by decide)⟩

theorem startsWithL_iff : ∀ (p s : List Char), startsWithL p s = true ↔ ∃ t, s = p ++ t := by
  intro p
  induction p with
  | nil => intro s; simp [startsWithL]
  | cons x xs ih =>
      intro s
      cases s with
      | nil =>
          simp [startsWithL]
      | cons c cs =>
          simp only [startsWithL, Bool.and_eq_true, beq_iff_eq, ih]
          constructor
          · rintro ⟨h1, t, h2⟩
            exact ⟨t, by rw [h1, h2]; rfl⟩
          · rintro ⟨t, ht⟩
            injection ht with h1 h2
            exact ⟨h1.symm, t, h2⟩

theorem containsSubL_iff : ∀ (pat s : List Char),
    containsSubL pat s = true ↔ ∃ a b, s = a ++ pat ++ b := by
  intro pat s
  induction s with
  | nil =>
      simp only [containsSubL, startsWithL_iff]
      constructor
      · rintro ⟨t, ht⟩
        exact ⟨[], t, ht⟩
      · rintro ⟨a, b, hab⟩
        have ha : a = [] := by
          cases a with
          | nil => rfl
          | cons x xs => simp at hab
        subst ha
        exact ⟨b, by simpa using hab⟩
  | cons c cs ih =>
      simp only [containsSubL, Bool.or_eq_true, startsWithL_iff, ih]
      constructor
      · rintro (⟨t, ht⟩ | ⟨a, b, hab⟩)
        · exact ⟨[], t, by simpa using ht⟩
        · exact ⟨c :: a, b, by rw [hab]; rfl⟩
      · rintro ⟨a, b, hab⟩
        cases a with
        | nil => exact Or.inl ⟨b, by simpa using hab⟩
        | cons x xs =>
            injection hab with h1 h2
            exact Or.inr ⟨xs, b, h2⟩

theorem containsSubL_append_left (pat w : List Char) (h : containsSubL pat w = true) :
    ∀ (x : List Char), containsSubL pat (x ++ w) = true := by
  intro x
  induction x with
  | nil => simpa using h
  | cons c cs ih => simp [containsSubL, ih]

theorem sub_body_eq : ∀ (k P x y : List Char), '}' ∉ k → '}' ∉ P →
    k ++ '}' :: x = P ++ '}' :: y → k = P := by
  intro k
  induction k with
  | nil =>
      intro P x y _ hP h
      cases P with
      | nil => rfl
      | cons p ps =>
          injection h with h1 h2
          exact absurd (h1 ▸ List.mem_cons_self p ps) hP
  | cons c ks ih =>
      intro P x y hk hP h
      cases P with
      | nil =>
          injection h with h1 h2
          exact absurd (h1 ▸ List.mem_cons_self c ks) hk
      | cons p ps =>
          injection h with h1 h2
          rw [h1, ih ps x y (fun hm => hk (List.mem_cons_of_mem c hm))
            (fun hm => hP (h1 ▸ List.mem_cons_of_mem p hm)) h2]

theorem nodollarCopy (old1 new : List Char) :
    ∀ (pre : List Char), (∀ c ∈ pre, c ≠ '$') →
    ∀ (fuel : Nat) (s : List Char),
      ∃ r, replaceFuel ('$' :: old1) new fuel (pre ++ s) = pre ++ r := by
  intro pre
  induction pre with
  | nil => intro _ fuel s; exact ⟨replaceFuel ('$' :: old1) new fuel s, rfl⟩
  | cons c cs ih =>
      intro hnd fuel s
      have hc : c ≠ '$' := hnd c (List.mem_cons_self c cs)
      cases fuel with
      | zero => exact ⟨s, by rw [List.cons_append]; rfl⟩
      | succ f =>
          have hsw : startsWithL ('$' :: old1) (c :: (cs ++ s)) = false := by
            simp [startsWithL, beq_eq_false_iff_ne, Ne, hc.symm]
          have hred : replaceFuel ('$' :: old1) new (f + 1) ((c :: cs) ++ s) =
              c :: replaceFuel ('$' :: old1) new f (cs ++ s) := by
            rw [List.cons_append]
            show (if startsWithL ('$' :: old1) (c :: (cs ++ s)) = true then
                new ++ replaceFuel ('$' :: old1) new f (List.drop old1.length (cs ++ s))
              else c :: replaceFuel ('$' :: old1) new f (cs ++ s)) =
              c :: replaceFuel ('$' :: old1) new f (cs ++ s)
            rw [hsw]
            simp
          obtain ⟨r, hr⟩ := ih (fun x hx => hnd x (List.mem_cons_of_mem c hx)) f s
          exact ⟨r, by rw [hred, hr]; rfl⟩

theorem replaceFuel_keeps (kd rd new : List Char)
    (hk1 : '$' ∉ kd) (hk2 : '}' ∉ kd) (hr1 : '$' ∉ rd) (hr2 : '}' ∉ rd) (hne : kd ≠ rd) :
    ∀ (fuel : Nat) (s : List Char), containsSubL (subPat rd) s = true →
      containsSubL (subPat rd) (replaceFuel (subPat kd) new fuel s) = true := by
  intro fuel
  induction fuel with
  | zero =>
      intro s h
      cases s with
      | nil => simp [containsSubL, startsWithL, subPat] at h
      | cons c cs => exact h
  | succ f ih =>
      intro s h
      cases s with
      | nil => simp [containsSubL, startsWithL, subPat] at h
      | cons c cs =>
          obtain ⟨a, b, hab⟩ := (containsSubL_iff _ _).mp h
          cases hm : startsWithL (subPat kd) (c :: cs) with
          | true =>
              obtain ⟨t, ht⟩ := (startsWithL_iff _ _).mp hm
              have hred : replaceFuel (subPat kd) new (f + 1) (c :: cs) =
                  new ++ replaceFuel (subPat kd) new f
                    (List.drop ('{' :: (kd ++ ['}'])).length cs) := by
                show (if startsWithL (subPat kd) (c :: cs) = true then
                    new ++ replaceFuel (subPat kd) new f
                      (List.drop ('{' :: (kd ++ ['}'])).length cs)
                  else c :: replaceFuel (subPat kd) new f cs) = _
                rw [hm]
                simp
              have hlen : (subPat kd).length ≤ a.length := by
                by_contra hlt
                push_neg at hlt
                have hpa : a <+: subPat kd :=
                  List.prefix_of_prefix_length_le
                    ⟨subPat rd ++ b, by rw [← List.append_assoc]; exact hab.symm⟩
                    ⟨t, ht.symm⟩ (le_of_lt hlt)
                obtain ⟨m, hm2⟩ := hpa
                have hmt : m ++ t = subPat rd ++ b := by
                  have h0 : a ++ (m ++ t) = a ++ (subPat rd ++ b) := by
                    rw [← List.append_assoc, hm2, ← ht, hab, List.append_assoc]
                  exact List.append_cancel_left h0
                cases a with
                | nil =>
                    simp only [List.nil_append] at hm2
                    subst hm2
                    simp only [subPat, List.cons_append, List.append_assoc,
                      List.singleton_append, List.cons.injEq, true_and] at hmt
                    exact hne (sub_body_eq kd rd t b hk2 hr2 hmt)
                | cons a0 a1 =>
                    have hmne : m ≠ [] := by
                      intro h0
                      rw [h0, List.append_nil] at hm2
                      rw [← hm2] at hlt
                      exact lt_irrefl _ hlt
                    cases m with
                    | nil => exact hmne rfl
                    | cons m0 m1 =>
                        have hm0 : m0 = '$' := by
                          have := hmt
                          simp only [subPat, List.cons_append, List.cons.injEq] at this
                          exact this.1
                        subst hm0
                        have hdm : '$' ∈ '{' :: (kd ++ ['}']) := by
                          have h1 : a1 ++ '$' :: m1 = '{' :: (kd ++ ['}']) := by
                            have := hm2
                            simp only [subPat, List.cons_append, List.cons.injEq] at this
                            exact this.2
                          rw [← h1]
                          exact List.mem_append_right a1 (List.mem_cons_self _ _)
                        simp only [List.mem_cons, List.mem_append, List.mem_singleton] at hdm
                        rcases hdm with h1 | h1 | h1
                        · exact absurd h1 (by decide)
                        · exact hk1 h1
                        · exact absurd h1 (by decide)
              have hpoa : subPat kd <+: a :=
                List.prefix_of_prefix_length_le ⟨t, ht.symm⟩
                  ⟨subPat rd ++ b, by rw [← List.append_assoc]; exact hab.symm⟩ hlen
              obtain ⟨a2, ha2⟩ := hpoa
              have hta : t = a2 ++ (subPat rd ++ b) := by
                have h0 : subPat kd ++ t = subPat kd ++ (a2 ++ (subPat rd ++ b)) := by
                  rw [← ht, hab, ← ha2]
                  simp [List.append_assoc]
                exact List.append_cancel_left h0
              have hcs : cs = ('{' :: (kd ++ ['}'])) ++ t := by
                have := ht
                simp only [subPat, List.cons_append, List.cons.injEq] at this
                exact this.2
              have hdrop : List.drop ('{' :: (kd ++ ['}'])).length cs = t := by
                rw [hcs, List.drop_left]
              have hint : containsSubL (subPat rd) t = true :=
                (containsSubL_iff _ _).mpr ⟨a2, b, by rw [hta, ← List.append_assoc]⟩
              rw [hred, hdrop]
              exact containsSubL_append_left _ _ (ih t hint) new
          | false =>
              have hred : replaceFuel (subPat kd) new (f + 1) (c :: cs) =
                  c :: replaceFuel (subPat kd) new f cs := by
                show (if startsWithL (subPat kd) (c :: cs) = true then
                    new ++ replaceFuel (subPat kd) new f
                      (List.drop ('{' :: (kd ++ ['}'])).length cs)
                  else c :: replaceFuel (subPat kd) new f cs) = _
                rw [hm]
                simp
              rw [hred]
              cases a with
              | nil =>
                  have hc : c = '$' := by
                    have := hab
                    simp only [List.nil_append, subPat, List.cons_append, List.cons.injEq] at this
                    exact this.1
                  have hcs : cs = ('{' :: (rd ++ ['}'])) ++ b := by
                    have := hab
                    simp only [List.nil_append, subPat, List.cons_append, List.cons.injEq] at this
                    exact this.2
                  have hnod : ∀ x ∈ '{' :: (rd ++ ['}']), x ≠ '$' := by
                    intro x hx h0
                    subst h0
                    simp only [List.mem_cons, List.mem_append] at hx
                    rcases hx with h1 | h1 | h1
                    · exact absurd h1 (by decide)
                    · exact hr1 h1
                    · exact absurd h1 (by decide)
                  obtain ⟨r, hr⟩ := nodollarCopy ('{' :: (kd ++ ['}'])) new
                    ('{' :: (rd ++ ['}'])) hnod f b
                  rw [hcs]
                  have hfin : c :: replaceFuel (subPat kd) new f (('{' :: (rd ++ ['}'])) ++ b) =
                      ([] : List Char) ++ subPat rd ++ r := by
                    rw [hc]
                    show '$' :: replaceFuel ('$' :: '{' :: (kd ++ ['}'])) new f
                        (('{' :: (rd ++ ['}'])) ++ b) = _
                    rw [hr]
                    simp [subPat, List.cons_append, List.append_assoc]
                  rw [hfin]
                  exact (containsSubL_iff _ _).mpr ⟨[], r, rfl⟩
              | cons a0 a1 =>
                  have hc : c = a0 ∧ cs = a1 ++ subPat rd ++ b := by
                    have := hab
                    simp only [List.cons_append, List.cons.injEq] at this
                    exact this
                  have hint : containsSubL (subPat rd) cs = true :=
                    (containsSubL_iff _ _).mpr ⟨a1, b, hc.2⟩
                  have := ih cs hint
                  simp [containsSubL, this]

theorem strData_append (a b : String) : (a ++ b).data = a.data ++ b.data := by
  cases a
  cases b
  rfl

theorem subKeyPat (k : String) : ("$\x7b" ++ k ++ "\x7d").data = subPat k.data := by
  rw [strData_append, strData_append]
  simp [subPat, List.append_assoc]

theorem regionPat_data : regionPat.data = subPat ("AWS::Region".data) := by decide

theorem strContains_replaceAll_keeps (text s k : String)
    (h1 : k ≠ "AWS::Region") (h2 : '$' ∉ k.data) (h3 : '}' ∉ k.data)
    (hc : strContains text regionPat = true) :
    strContains (replaceAll text ("$\x7b" ++ k ++ "\x7d") s) regionPat = true := by
  have hne : k.data ≠ "AWS::Region".data := by
    intro hd
    apply h1
    cases k
    exact congrArg String.mk hd
  have hgoal : strContains (replaceAll text ("$\x7b" ++ k ++ "\x7d") s) regionPat =
      containsSubL (subPat ("AWS::Region".data))
        (replaceFuel (subPat k.data) s.data text.data.length text.data) := by
    simp [strContains, replaceAll, replaceL, subKeyPat, regionPat_data]
    rfl
  rw [hgoal]
  apply replaceFuel_keeps k.data ("AWS::Region".data) s.data h2 h3 (by decide) (by decide) hne
  rw [← regionPat_data]
  exact hc

theorem resolveSubPairs_keeps (env : Env) (sn : String) :
    ∀ (subs : JObj) (text : String) (res : Resources) (text2 : String) (res2 : Resources),
      (∀ k ∈ subs.keys, k ≠ "AWS::Region" ∧ '$' ∉ k.data ∧ '}' ∉ k.data) →
      strContains text regionPat = true →
      resolveSubPairs env sn subs text res = .ok (text2, res2) →
      strContains text2 regionPat = true
  | .onil, text, res, text2, res2, hk, hc, heq => by
      have hred : resolveSubPairs env sn .onil text res = .ok (text, res) := rfl
      rw [hred] at heq
      have h0 : text = text2 := by
        injection heq with h
        injection h with h1 h2
      rw [← h0]
      exact hc
  | .ocons k v rest, text, res, text2, res2, hk, hc, heq => by
      have hred : resolveSubPairs env sn (.ocons k v rest) text res =
          (match resolve_refs_recursively env sn v res with
           | .error e => .error e
           | .ok (v2, res1) =>
               match v2 with
               | .jstr s =>
                   resolveSubPairs env sn rest (replaceAll text ("$\x7b" ++ k ++ "\x7d") s) res1
               | _ => .error "TypeError") := rfl
      rw [hred] at heq
      cases hv : resolve_refs_recursively env sn v res with
      | error e => rw [hv] at heq; exact absurd heq (by simp)
      | ok p =>
          obtain ⟨v2, res1⟩ := p
          rw [hv] at heq
          cases v2 with
          | jstr s =>
              have hkk := hk k (by simp [JObj.keys])
              exact resolveSubPairs_keeps env sn rest
                (replaceAll text ("$\x7b" ++ k ++ "\x7d") s) res1 text2 res2
                (fun k2 hk2 => hk k2 (by simp [JObj.keys]; exact Or.inr hk2))
                (strContains_replaceAll_keeps text s k hkk.1 hkk.2.1 hkk.2.2 hc) heq
          | jnull => exact absurd heq (by simp)
          | jbool b => exact absurd heq (by simp)
          | jnum n => exact absurd heq (by simp)
          | jarr a => exact absurd heq (by simp)
          | jobj o => exact absurd heq (by simp)

/-- C10: for a two-element-list `Fn::Sub` with an explicit substitution map,
only the keys of that map are substituted: when no key of the map is
`AWS::Region` (and keys are well-formed placeholder names, free of `$` and
`\x7d`), a `$\x7bAWS::Region\x7d` placeholder contained in the template
string is still contained in the resolved string; concretely, resolving
`\x7b"Fn::Sub": ["x-$\x7bAWS::Region\x7d-$\x7bK\x7d", \x7b"K": "v"\x7d]\x7d`
yields `x-$\x7bAWS::Region\x7d-v`, the pseudo-parameter left unreplaced. -/
theorem c10_explicit_sub :
    (∀ (env : Env) (stack_name : String) (res : Resources) (subs : JObj)
        (text text2 : String) (res2 : Resources),
        (∀ k ∈ subs.keys, k ≠ "AWS::Region" ∧ '$' ∉ k.data ∧ '}' ∉ k.data) →
        strContains text regionPat = true →
        resolve_refs_recursively env stack_name (subExprList text subs) res =
          .ok (.jstr text2, res2) →
        strContains text2 regionPat = true) ∧
    resolve_refs_recursively envResolved "stack"
        (subExprList "x-$\x7bAWS::Region\x7d-$\x7bK\x7d" (.ocons "K" (.jstr "v") .onil)) [] =
      .ok (.jstr "x-$\x7bAWS::Region\x7d-v", []) := by
  constructor
  · intro env stack_name res subs text text2 res2 hk hc heq
    cases subs with
    | onil =>
        have hred : resolve_refs_recursively env stack_name (subExprList text .onil) res =
            .ok (.jstr text, res) := rfl
        rw [hred] at heq
        have h0 : text = text2 := by
          injection heq with h
          injection h with h1 h2
          injection h1 with h3
        rw [← h0]
        exact hc
    | ocons k0 v0 r0 =>
        have hred : resolve_refs_recursively env stack_name
              (subExprList text (.ocons k0 v0 r0)) res =
            (match resolveSubPairs env stack_name (.ocons k0 v0 r0) text res with
             | .error e => .error e
             | .ok (t2, r1) => .ok (.jstr t2, r1)) := rfl
        rw [hred] at heq
        cases hsp : resolveSubPairs env stack_name (.ocons k0 v0 r0) text res with
        | error e => rw [hsp] at heq; exact absurd heq (by simp)
        | ok p =>
            obtain ⟨t2, r1⟩ := p
            rw [hsp] at heq
            have ht2 : t2 = text2 := by
              injection heq with h
              injection h with h1 h2
              injection h1 with h3
            rw [← ht2]
            exact resolveSubPairs_keeps env stack_name (.ocons k0 v0 r0) text res t2 r1 hk hc hsp
  · decide

/-- Witness for C10: the preservation statement applied to the concrete
one-key substitution map. -/
theorem c10_witness :
    strContains "x-$\x7bAWS::Region\x7d-v" regionPat = true :=
  c10_explicit_sub.1 envResolved "stack" [] (.ocons "K" (.jstr "v") .onil)
    "x-$\x7bAWS::Region\x7d-$\x7bK\x7d" "x-$\x7bAWS::Region\x7d-v" []
    (by decide) (by decide) (by decide)

theorem ok_snd_eq {α β : Type} {a v : α} {b r : β}
    (h : (Except.ok (a, b) : Except String (α × β)) = .ok (v, r)) : r = b := by
  injection h with h1
  injection h1 with h2 h3
  exact h3.symm

theorem retrieve_pure (env : Env) (rid : String) (status : JObj) (res : Resources)
    (sn : String)
    (H : ∀ p ∈ res, get_resource_type p.2 ≠ some "Lambda::Function") :
    (retrieve_resource_details env rid status res sn).2 = res := by
  simp only [retrieve_resource_details]
  split
  · next heq =>
      exfalso
      cases hl : List.lookup rid res with
      | none => rw [hl] at heq; exact Option.noConfusion (by simpa using heq)
      | some v =>
          rw [hl] at heq
          exact H (rid, v) (lookupRes_mem res rid v hl) (by simpa using heq)
  · rfl

theorem resolveRefDetails_pure (env : Env) (sn : String) (ref : String) (res : Resources)
    (attrName : String) (status : JObj)
    (H : ∀ p ∈ res, get_resource_type p.2 ≠ some "Lambda::Function") :
    ∀ (v : JVal) (res2 : Resources),
      resolveRefDetails env sn ref res attrName status = .ok (v, res2) → res2 = res := by
  intro v res2 heq
  have hp := retrieve_pure env ref status res sn H
  unfold resolveRefDetails at heq
  rcases hrd : retrieve_resource_details env ref status res sn with ⟨od, resb⟩
  rw [hrd] at hp
  rw [hrd] at heq
  cases od with
  | none =>
      simp only at heq
      rw [ok_snd_eq heq]
      exact hp
  | some rn =>
      simp only at heq
      cases hj : !jtruthy rn with
      | true =>
          rw [hj] at heq
          simp only [if_true] at heq
          rw [ok_snd_eq heq]
          exact hp
      | false =>
          rw [hj] at heq
          simp only [Bool.false_eq_true, if_false] at heq
          cases hl : List.lookup ref resb with
          | none => rw [hl] at heq; exact Except.noConfusion heq
          | some resource =>
              rw [hl] at heq
              simp only at heq
              cases he : extract_resource_attribute env (get_resource_type resource) rn attrName with
              | error e => rw [he] at heq; exact Except.noConfusion heq
              | ok result =>
                  rw [he] at heq
                  rw [ok_snd_eq heq]
                  exact hp

theorem resolve_ref_pure (env : Env) (sn : String) (ref : String) (res : Resources)
    (attrName : String)
    (H : ∀ p ∈ res, get_resource_type p.2 ≠ some "Lambda::Function") :
    ∀ (v : JVal) (res2 : Resources),
      resolve_ref env sn ref res attrName = .ok (v, res2) → res2 = res := by
  intro v res2 heq
  unfold resolve_ref at heq
  split at heq
  · exact ok_snd_eq heq
  · split at heq
    · exact ok_snd_eq heq
    · split at heq
      · exact ok_snd_eq heq
      · split at heq
        · exact ok_snd_eq heq
        · split at heq
          · split at heq
            · exact ok_snd_eq heq
            · split at heq
              · exact ok_snd_eq heq
              · split at heq
                · exact ok_snd_eq heq
                · exact resolveRefDetails_pure env sn ref res attrName _ H v res2 heq
          · split at heq
            · split at heq
              · exact resolveRefDetails_pure env sn ref res attrName _ H v res2 heq
              · exact Except.noConfusion heq
              · exact Except.noConfusion heq
            · exact resolveRefDetails_pure env sn ref res attrName _ H v res2 heq

theorem subPseudoRefs_pure (env : Env) (sn : String) :
    ∀ (names : List String) (text : String) (res : Resources),
      (∀ p ∈ res, get_resource_type p.2 ≠ some "Lambda::Function") →
      ∀ (t2 : String) (res2 : Resources),
        subPseudoRefs env sn names text res = .ok (t2, res2) → res2 = res := by
  intro names
  induction names with
  | nil =>
      intro text res H t2 res2 heq
      exact ok_snd_eq heq
  | cons r rest ih =>
      intro text res H t2 res2 heq
      unfold subPseudoRefs at heq
      cases hr : resolve_ref env sn r res "PhysicalResourceId" with
      | error e => rw [hr] at heq; exact Except.noConfusion heq
      | ok p =>
          obtain ⟨v1, res1⟩ := p
          rw [hr] at heq
          have h1 : res1 = res := resolve_ref_pure env sn r res "PhysicalResourceId" H v1 res1 hr
          cases v1 with
          | jstr s =>
              simp only at heq
              rw [h1] at heq
              exact ih _ res H t2 res2 heq
          | jnull => exact Except.noConfusion heq
          | jbool b => exact Except.noConfusion heq
          | jnum n => exact Except.noConfusion heq
          | jarr a => exact Except.noConfusion heq
          | jobj o => exact Except.noConfusion heq

theorem refBranch_pure (env : Env) (sn : String) (v : JVal) (res : Resources)
    (H : ∀ p ∈ res, get_resource_type p.2 ≠ some "Lambda::Function") :
    ∀ (out : JVal) (res2 : Resources),
      resolveRefBranch env sn v res = .ok (out, res2) → res2 = res := by
  intro out res2 heq
  cases v <;> try exact Except.noConfusion heq
  case jstr r => exact resolve_ref_pure env sn r res "PhysicalResourceId" H out res2 heq

theorem getAttBranch_pure (env : Env) (sn : String) (v : JVal) (res : Resources)
    (H : ∀ p ∈ res, get_resource_type p.2 ≠ some "Lambda::Function") :
    ∀ (out : JVal) (res2 : Resources),
      resolveGetAttBranch env sn v res = .ok (out, res2) → res2 = res := by
  intro out res2 heq
  cases v <;> try exact Except.noConfusion heq
  case jarr a =>
    cases a <;> try exact Except.noConfusion heq
    case acons x t =>
      cases t <;> try exact Except.noConfusion heq
      case acons y t2 =>
        cases x <;> try exact Except.noConfusion heq
        case jstr r =>
          cases y <;> try exact Except.noConfusion heq
          case jstr attrName =>
            exact resolve_ref_pure env sn r res attrName H out res2 heq

theorem rrr_step_arr (env : Env) (sn : String) (a : JArr) (res : Resources) :
    resolve_refs_recursively env sn (.jarr a) res =
      (match resolveArrItems env sn a res with
       | .error e => .error e
       | .ok (a2, res1) => .ok (.jarr a2, res1)) := rfl

theorem rrr_step_obj (env : Env) (sn : String) (k : String) (v : JVal) (rest : JObj)
    (res : Resources) :
    resolve_refs_recursively env sn (.jobj (.ocons k v rest)) res =
      (if k == "Ref" && rest == .onil then resolveRefBranch env sn v res
       else if lcString k == "fn::getatt" then resolveGetAttBranch env sn v res
       else if lcString k == "fn::join" then resolveJoinBranch env sn v res
       else if lcString k == "fn::sub" then resolveSubBranch env sn v res
       else
         match resolve_refs_recursively env sn v res with
         | .error e => .error e
         | .ok (v2, res1) =>
             match resolveObjFields env sn rest res1 with
             | .error e => .error e
             | .ok (rest2, res2) => .ok (.jobj (.ocons k v2 rest2), res2)) := rfl

theorem joinBranch_step (env : Env) (sn : String) (sepv : JVal) (parts tail : JArr)
    (res : Resources) :
    resolveJoinBranch env sn (.jarr (.acons sepv (.acons (.jarr parts) tail))) res =
      (match resolveArrItems env sn parts res with
       | .error e => .error e
       | .ok (vals, res1) =>
           if vals.containsV .jnull then .error joinNullError
           else
             match sepv with
             | .jstr sep =>
                 match allStringsOf vals with
                 | some strs => .ok (.jstr (joinSep sep strs), res1)
                 | none => .error "TypeError"
             | _ => .error "AttributeError") := rfl

theorem subBranch_step_str (env : Env) (sn : String) (text : String) (res : Resources) :
    resolveSubBranch env sn (.jstr text) res =
      (match subPseudoRefs env sn STATIC_REFS text res with
       | .error e => .error e
       | .ok (text2, res1) => .ok (.jstr text2, res1)) := rfl

theorem subBranch_step_pairs (env : Env) (sn : String) (text : String) (k2 : String)
    (v2 : JVal) (r2 : JObj) (tail : JArr) (res : Resources) :
    resolveSubBranch env sn
        (.jarr (.acons (.jstr text) (.acons (.jobj (.ocons k2 v2 r2)) tail))) res =
      (match resolveSubPairs env sn (.ocons k2 v2 r2) text res with
       | .error e => .error e
       | .ok (text2, res1) => .ok (.jstr text2, res1)) := rfl

theorem arrItems_step (env : Env) (sn : String) (v : JVal) (rest : JArr) (res : Resources) :
    resolveArrItems env sn (.acons v rest) res =
      (match resolve_refs_recursively env sn v res with
       | .error e => .error e
       | .ok (v2, res1) =>
           match resolveArrItems env sn rest res1 with
           | .error e => .error e
           | .ok (rest2, res2) => .ok (.acons v2 rest2, res2)) := rfl

theorem objFields_step (env : Env) (sn : String) (k : String) (v : JVal) (rest : JObj)
    (res : Resources) :
    resolveObjFields env sn (.ocons k v rest) res =
      (match resolve_refs_recursively env sn v res with
       | .error e => .error e
       | .ok (v2, res1) =>
           match resolveObjFields env sn rest res1 with
           | .error e => .error e
           | .ok (rest2, res2) => .ok (.ocons k v2 rest2, res2)) := rfl

theorem subPairs_step (env : Env) (sn : String) (k : String) (v : JVal) (rest : JObj)
    (text : String) (res : Resources) :
    resolveSubPairs env sn (.ocons k v rest) text res =
      (match resolve_refs_recursively env sn v res with
       | .error e => .error e
       | .ok (v2, res1) =>
           match v2 with
           | .jstr s =>
               resolveSubPairs env sn rest (replaceAll text ("$\x7b" ++ k ++ "\x7d") s) res1
           | _ => .error "TypeError") := rfl

mutual

theorem rrr_pure (env : Env) (sn : String) :
    ∀ (v : JVal) (res : Resources),
      (∀ p ∈ res, get_resource_type p.2 ≠ some "Lambda::Function") →
      ∀ (out : JVal) (res2 : Resources),
        resolve_refs_recursively env sn v res = .ok (out, res2) → res2 = res
  | .jnull, res, H, out, res2, heq => ok_snd_eq heq
  | .jbool b, res, H, out, res2, heq => ok_snd_eq heq
  | .jnum n, res, H, out, res2, heq => ok_snd_eq heq
  | .jstr s, res, H, out, res2, heq => ok_snd_eq heq
  | .jarr a, res, H, out, res2, heq => by
      rw [rrr_step_arr env sn a res] at heq
      split at heq
      · exact Except.noConfusion heq
      · next a2 res1 ha =>
          rw [ok_snd_eq heq]
          exact arrItems_pure env sn a res H a2 res1 ha
  | .jobj .onil, res, H, out, res2, heq => ok_snd_eq heq
  | .jobj (.ocons k v rest), res, H, out, res2, heq => by
      rw [rrr_step_obj env sn k v rest res] at heq
      split at heq
      · exact refBranch_pure env sn v res H out res2 heq
      · split at heq
        · exact getAttBranch_pure env sn v res H out res2 heq
        · split at heq
          · exact joinBranch_pure env sn v res H out res2 heq
          · split at heq
            · exact subBranch_pure env sn v res H out res2 heq
            · cases hv : resolve_refs_recursively env sn v res with
              | error e => rw [hv] at heq; exact Except.noConfusion heq
              | ok p =>
                  obtain ⟨v2, res1⟩ := p
                  rw [hv] at heq
                  have h1 : res1 = res := rrr_pure env sn v res H v2 res1 hv
                  rw [h1] at heq
                  simp only at heq
                  cases ho : resolveObjFields env sn rest res with
                  | error e => rw [ho] at heq; exact Except.noConfusion heq
                  | ok q =>
                      obtain ⟨rest2, resb⟩ := q
                      rw [ho] at heq
                      rw [ok_snd_eq heq]
                      exact objFields_pure env sn rest res H rest2 resb ho

theorem joinBranch_pure (env : Env) (sn : String) :
    ∀ (v : JVal) (res : Resources),
      (∀ p ∈ res, get_resource_type p.2 ≠ some "Lambda::Function") →
      ∀ (out : JVal) (res2 : Resources),
        resolveJoinBranch env sn v res = .ok (out, res2) → res2 = res
  | .jnull, res, H, out, res2, heq => Except.noConfusion heq
  | .jbool b, res, H, out, res2, heq => Except.noConfusion heq
  | .jnum n, res, H, out, res2, heq => Except.noConfusion heq
  | .jstr s, res, H, out, res2, heq => Except.noConfusion heq
  | .jobj o, res, H, out, res2, heq => Except.noConfusion heq
  | .jarr a, res, H, out, res2, heq => by
      cases a <;> try exact Except.noConfusion heq
      case acons sepv t =>
        cases t <;> try exact Except.noConfusion heq
        case acons w t2 =>
          cases w <;> try exact Except.noConfusion heq
          case jarr parts =>
            rw [joinBranch_step env sn sepv parts t2 res] at heq
            cases ha : resolveArrItems env sn parts res with
            | error e => rw [ha] at heq; exact Except.noConfusion heq
            | ok p =>
                obtain ⟨vals, res1⟩ := p
                rw [ha] at heq
                simp only at heq
                have h1 : res1 = res := arrItems_pure env sn parts res H vals res1 ha
                cases hcv : JArr.containsV JVal.jnull vals with
                | true =>
                    rw [hcv] at heq
                    simp only [if_true] at heq
                    exact Except.noConfusion heq
                | false =>
                    rw [hcv] at heq
                    simp only [Bool.false_eq_true, if_false] at heq
                    cases sepv <;> try exact Except.noConfusion heq
                    case jstr sep =>
                      cases hstr : allStringsOf vals with
                      | some strs =>
                          rw [hstr] at heq
                          rw [ok_snd_eq heq]
                          exact h1
                      | none => rw [hstr] at heq; exact Except.noConfusion heq

theorem subBranch_pure (env : Env) (sn : String) :
    ∀ (v : JVal) (res : Resources),
      (∀ p ∈ res, get_resource_type p.2 ≠ some "Lambda::Function") →
      ∀ (out : JVal) (res2 : Resources),
        resolveSubBranch env sn v res = .ok (out, res2) → res2 = res
  | .jnull, res, H, out, res2, heq => Except.noConfusion heq
  | .jbool b, res, H, out, res2, heq => Except.noConfusion heq
  | .jnum n, res, H, out, res2, heq => Except.noConfusion heq
  | .jobj o, res, H, out, res2, heq => Except.noConfusion heq
  | .jstr text, res, H, out, res2, heq => by
      rw [subBranch_step_str env sn text res] at heq
      cases hs : subPseudoRefs env sn STATIC_REFS text res with
      | error e => rw [hs] at heq; exact Except.noConfusion heq
      | ok p =>
          obtain ⟨t2, res1⟩ := p
          rw [hs] at heq
          rw [ok_snd_eq heq]
          exact subPseudoRefs_pure env sn STATIC_REFS text res H t2 res1 hs
  | .jarr a, res, H, out, res2, heq => by
      cases a <;> try exact Except.noConfusion heq
      case acons t0 t =>
        cases t <;> try exact Except.noConfusion heq
        case acons w t2 =>
          cases w <;> try exact Except.noConfusion heq
          case jobj subs =>
            cases subs with
            | onil => exact ok_snd_eq heq
            | ocons k2 v2 r2 =>
                cases t0 <;> try exact Except.noConfusion heq
                case jstr text =>
                  rw [subBranch_step_pairs env sn text k2 v2 r2 t2 res] at heq
                  cases hs : resolveSubPairs env sn (.ocons k2 v2 r2) text res with
                  | error e => rw [hs] at heq; exact Except.noConfusion heq
                  | ok p =>
                      obtain ⟨t2v, res1⟩ := p
                      rw [hs] at heq
                      rw [ok_snd_eq heq]
                      exact subPairs_pure env sn (.ocons k2 v2 r2) text res H t2v res1 hs

theorem arrItems_pure (env : Env) (sn : String) :
    ∀ (a : JArr) (res : Resources),
      (∀ p ∈ res, get_resource_type p.2 ≠ some "Lambda::Function") →
      ∀ (a2 : JArr) (res2 : Resources),
        resolveArrItems env sn a res = .ok (a2, res2) → res2 = res
  | .anil, res, H, a2, res2, heq => ok_snd_eq heq
  | .acons v rest, res, H, a2, res2, heq => by
      rw [arrItems_step env sn v rest res] at heq
      split at heq
      · exact Except.noConfusion heq
      · next v2 res1 hv =>
          have h1 : res1 = res := rrr_pure env sn v res H v2 res1 hv
          rw [h1] at heq
          split at heq
          · exact Except.noConfusion heq
          · next rest2 resb hr =>
              rw [ok_snd_eq heq]
              exact arrItems_pure env sn rest res H rest2 resb hr

theorem objFields_pure (env : Env) (sn : String) :
    ∀ (o : JObj) (res : Resources),
      (∀ p ∈ res, get_resource_type p.2 ≠ some "Lambda::Function") →
      ∀ (o2 : JObj) (res2 : Resources),
        resolveObjFields env sn o res = .ok (o2, res2) → res2 = res
  | .onil, res, H, o2, res2, heq => ok_snd_eq heq
  | .ocons k v rest, res, H, o2, res2, heq => by
      rw [objFields_step env sn k v rest res] at heq
      split at heq
      · exact Except.noConfusion heq
      · next v2 res1 hv =>
          have h1 : res1 = res := rrr_pure env sn v res H v2 res1 hv
          rw [h1] at heq
          split at heq
          · exact Except.noConfusion heq
          · next rest2 resb hr =>
              rw [ok_snd_eq heq]
              exact objFields_pure env sn rest res H rest2 resb hr

theorem subPairs_pure (env : Env) (sn : String) :
    ∀ (subs : JObj) (text : String) (res : Resources),
      (∀ p ∈ res, get_resource_type p.2 ≠ some "Lambda::Function") →
      ∀ (t2 : String) (res2 : Resources),
        resolveSubPairs env sn subs text res = .ok (t2, res2) → res2 = res
  | .onil, text, res, H, t2, res2, heq => ok_snd_eq heq
  | .ocons k v rest, text, res, H, t2, res2, heq => by
      rw [subPairs_step env sn k v rest text res] at heq
      split at heq
      · exact Except.noConfusion heq
      · next v2 res1 hv =>
          have h1 : res1 = res := rrr_pure env sn v res H v2 res1 hv
          rw [h1] at heq
          split at heq
          · exact subPairs_pure env sn rest _ res H t2 res2 heq
          · exact Except.noConfusion heq

end

/-- C9 (amended): reference resolution leaves the resource model unmodified
provided no resource of the map is a `Lambda::Function` — for such maps a
successful `resolve_refs_recursively` returns the resource map unchanged. (The
unamended claim is refuted by `c9_counterexample`: the `Lambda::Function`
branch of `retrieve_resource_details` writes a generated `FunctionName` into
the resource `Properties` during resolution.) -/
theorem c9_pure_no_lambda :
    ∀ (env : Env) (stack_name : String) (value : JVal) (res : Resources),
      (∀ p ∈ res, get_resource_type p.2 ≠ some "Lambda::Function") →
      ∀ (out : JVal) (res2 : Resources),
        resolve_refs_recursively env stack_name value res = .ok (out, res2) → res2 = res :=
  fun env sn v res H out res2 heq => rrr_pure env sn v res H out res2 heq

set_option maxRecDepth 4000 in
/-- C9 counterexample: resolving `\x7b"Ref": "F"\x7d` against a map holding a
`Lambda::Function` with empty `Properties` writes the generated default
`FunctionName` (`mystack-lambda-uid1`) into the resource map — resolution is
not free of writes to the resource model. -/
theorem c9_counterexample :
    resolve_refs_recursively envLam "mystack" (refOf "F") lamMap = .ok (.jnull, lamMapAfter) ∧
    lamMapAfter ≠ lamMap := by
  constructor
  · decide
  · decide

/-- Witness for C9: the no-`Lambda` purity statement applied to a one-queue
map whose reference resolves successfully. -/
theorem c9_witness :
    (∀ p ∈ qMap, get_resource_type p.2 ≠ some "Lambda::Function") ∧ qMap = qMap :=
  ⟨by decide,
   c9_pure_no_lambda envQ "stack" (refOf "Q") qMap (by decide) (.jstr "q1") qMap (by decide)⟩

mutual

theorem fixPHV_eq (names : Nat → JVal) :
    ∀ (v : JVal) (st : NameState),
      (fixPlaceholdersV names v st).1 = substPlaceholderV (cacheVal names st) v ∧
      ((fixPlaceholdersV names v st).2 = st ∨
        (st.cache = none ∧
          (fixPlaceholdersV names v st).2 = ⟨some (names st.calls), st.calls + 1⟩))
  | .jnull, st => ⟨rfl, Or.inl rfl⟩
  | .jbool b, st => ⟨rfl, Or.inl rfl⟩
  | .jnum n, st => ⟨rfl, Or.inl rfl⟩
  | .jstr s, st => ⟨rfl, Or.inl rfl⟩
  | .jobj o, st => by
      obtain ⟨h1, h2⟩ := fixPHObj_eq names o st
      rcases hf : fixPlaceholdersObj names o st with ⟨o2, st2⟩
      rw [hf] at h1 h2
      simp only at h1 h2
      have hstep : fixPlaceholdersV names (.jobj o) st = (.jobj o2, st2) := by
        have e0 : fixPlaceholdersV names (.jobj o) st =
            (match fixPlaceholdersObj names o st with
             | (o2, st2) => (JVal.jobj o2, st2)) := rfl
        rw [e0, hf]
      rw [hstep]
      refine ⟨?_, h2⟩
      show JVal.jobj o2 = _
      simp only [substPlaceholderV]
      rw [h1]
  | .jarr a, st => by
      obtain ⟨h1, h2⟩ := fixPHArr_eq names a st
      rcases hf : fixPlaceholdersArr names a st with ⟨a2, st2⟩
      rw [hf] at h1 h2
      simp only at h1 h2
      have hstep : fixPlaceholdersV names (.jarr a) st = (.jarr a2, st2) := by
        have e0 : fixPlaceholdersV names (.jarr a) st =
            (match fixPlaceholdersArr names a st with
             | (a2, st2) => (JVal.jarr a2, st2)) := rfl
        rw [e0, hf]
      rw [hstep]
      refine ⟨?_, h2⟩
      show JVal.jarr a2 = _
      simp only [substPlaceholderV]
      rw [h1]

theorem fixPHObj_eq (names : Nat → JVal) :
    ∀ (o : JObj) (st : NameState),
      (fixPlaceholdersObj names o st).1 = substPlaceholderObj (cacheVal names st) o ∧
      ((fixPlaceholdersObj names o st).2 = st ∨
        (st.cache = none ∧
          (fixPlaceholdersObj names o st).2 = ⟨some (names st.calls), st.calls + 1⟩))
  | .onil, st => ⟨rfl, Or.inl rfl⟩
  | .ocons k v rest, st => by
      cases hp : v == .jstr PLACEHOLDER_RESOURCE_NAME with
      | true =>
          cases hc : st.cache with
          | some n0 =>
              have hd : deriveCached names st = (n0, st) := by
                unfold deriveCached
                rw [hc]
              obtain ⟨h1, h2⟩ := fixPHObj_eq names rest st
              rcases hf : fixPlaceholdersObj names rest st with ⟨rest2, st2⟩
              rw [hf] at h1 h2
              simp only at h1 h2
              have hcv : cacheVal names st = n0 := by
                unfold cacheVal
                rw [hc]
              have hstep : fixPlaceholdersObj names (.ocons k v rest) st =
                  (.ocons k n0 rest2, st2) := by
                simp [fixPlaceholdersObj, hp, hd, hf]
              rw [hstep]
              refine ⟨?_, ?_⟩
              · show JObj.ocons k n0 rest2 = _
                simp only [substPlaceholderObj, hp, if_true]
                rw [h1, hcv]
              · rcases h2 with h2 | ⟨h2a, h2b⟩
                · exact Or.inl h2
                · rw [hc] at h2a
                  exact Option.noConfusion h2a
          | none =>
              have hd : deriveCached names st =
                  (names st.calls, ⟨some (names st.calls), st.calls + 1⟩) := by
                unfold deriveCached
                rw [hc]
              obtain ⟨h1, h2⟩ :=
                fixPHObj_eq names rest ⟨some (names st.calls), st.calls + 1⟩
              rcases hf : fixPlaceholdersObj names rest ⟨some (names st.calls), st.calls + 1⟩
                with ⟨rest2, st2⟩
              rw [hf] at h1 h2
              simp only at h1 h2
              have hcv : cacheVal names st = names st.calls := by
                unfold cacheVal
                rw [hc]
              have hcv2 : cacheVal names ⟨some (names st.calls), st.calls + 1⟩ =
                  names st.calls := rfl
              have hstep : fixPlaceholdersObj names (.ocons k v rest) st =
                  (.ocons k (names st.calls) rest2, st2) := by
                simp [fixPlaceholdersObj, hp, hd, hf]
              rw [hstep]
              rw [hcv2] at h1
              constructor
              · show JObj.ocons k (names st.calls) rest2 = _
                simp only [substPlaceholderObj, hp, if_true]
                rw [h1, hcv]
              · rcases h2 with h2 | ⟨h2a, h2b⟩
                · exact Or.inr ⟨rfl, h2⟩
                · exact absurd h2a (by simp)
      | false =>
          obtain ⟨g1, g2⟩ := fixPHV_eq names v st
          rcases hv : fixPlaceholdersV names v st with ⟨v2, st1⟩
          rw [hv] at g1 g2
          simp only at g1 g2
          obtain ⟨h1, h2⟩ := fixPHObj_eq names rest st1
          rcases hf : fixPlaceholdersObj names rest st1 with ⟨rest2, st2⟩
          rw [hf] at h1 h2
          simp only at h1 h2
          have hstep : fixPlaceholdersObj names (.ocons k v rest) st =
              (.ocons k v2 rest2, st2) := by
            simp [fixPlaceholdersObj, hp, hv, hf]
          rw [hstep]
          have hcv1 : cacheVal names st1 = cacheVal names st := by
            rcases g2 with g2 | ⟨g2a, g2b⟩
            · rw [g2]
            · rw [g2b]
              unfold cacheVal
              rw [g2a]
          constructor
          · show JObj.ocons k v2 rest2 = _
            simp only [substPlaceholderObj, hp, Bool.false_eq_true, if_false]
            rw [g1, h1, hcv1]
          · rcases g2 with g2 | ⟨g2a, g2b⟩
            · rw [g2] at h2
              exact h2
            · rcases h2 with h2 | ⟨h2a, h2b⟩
              · rw [g2b] at h2
                exact Or.inr ⟨g2a, h2⟩
              · rw [g2b] at h2a
                exact absurd h2a (by simp)

theorem fixPHArr_eq (names : Nat → JVal) :
    ∀ (a : JArr) (st : NameState),
      (fixPlaceholdersArr names a st).1 = substPlaceholderArr (cacheVal names st) a ∧
      ((fixPlaceholdersArr names a st).2 = st ∨
        (st.cache = none ∧
          (fixPlaceholdersArr names a st).2 = ⟨some (names st.calls), st.calls + 1⟩))
  | .anil, st => ⟨rfl, Or.inl rfl⟩
  | .acons v rest, st => by
      obtain ⟨g1, g2⟩ := fixPHV_eq names v st
      rcases hv : fixPlaceholdersV names v st with ⟨v2, st1⟩
      rw [hv] at g1 g2
      simp only at g1 g2
      obtain ⟨h1, h2⟩ := fixPHArr_eq names rest st1
      rcases hf : fixPlaceholdersArr names rest st1 with ⟨rest2, st2⟩
      rw [hf] at h1 h2
      simp only at h1 h2
      have hstep : fixPlaceholdersArr names (.acons v rest) st =
          (.acons v2 rest2, st2) := by
        simp [fixPlaceholdersArr, hv, hf]
      rw [hstep]
      have hcv1 : cacheVal names st1 = cacheVal names st := by
        rcases g2 with g2 | ⟨g2a, g2b⟩
        · rw [g2]
        · rw [g2b]
          unfold cacheVal
          rw [g2a]
      constructor
      · show JArr.acons v2 rest2 = _
        simp only [substPlaceholderArr]
        rw [g1, h1, hcv1]
      · rcases g2 with g2 | ⟨g2a, g2b⟩
        · rw [g2] at h2
          exact h2
        · rcases h2 with h2 | ⟨h2a, h2b⟩
          · rw [g2b] at h2
            exact Or.inr ⟨g2a, h2⟩
          · rw [g2b] at h2a
            exact absurd h2a (by simp)

end

/-- C6: within one `configure_resource_via_sdk` invocation every occurrence of
the placeholder token receives the same value: for any derivation behavior
`names` (possibly differing across calls), the placeholder pass started on a
fresh cache equals the uniform substitution of `names 0` and invokes the
derivation at most once; `fix_placeholders` itself equals the uniform
substitution of the derived resource name. -/
theorem c6_placeholder_cached :
    (∀ (names : Nat → JVal) (params : JVal),
        (fixPlaceholdersV names params ⟨none, 0⟩).1 = substPlaceholderV (names 0) params ∧
        (fixPlaceholdersV names params ⟨none, 0⟩).2.calls ≤ 1) ∧
    (∀ (env : Env) (resource : JVal) (resource_id : String) (params : JVal),
        fix_placeholders env resource resource_id params =
          substPlaceholderV (derivedResourceName env resource resource_id) params) := by
  constructor
  · intro names params
    obtain ⟨h1, h2⟩ := fixPHV_eq names params ⟨none, 0⟩
    constructor
    · exact h1
    · rcases h2 with h2 | ⟨h2a, h2b⟩
      · rw [h2]
        exact Nat.zero_le 1
      · rw [h2b]
  · intro env resource resource_id params
    unfold fix_placeholders
    exact (fixPHV_eq (fun _ => derivedResourceName env resource resource_id) params
      ⟨none, 0⟩).1
